import Mathlib

set_option maxRecDepth 20000

/-!
Shallow embedding of the CorpoAgentBackend workflow engine
(`src/agents/uni-agent/uni-agent.service.ts`, with the near-duplicate
`src/agents/orchestrator_agent/orchestrator.service.ts` noted where it
differs): the CSV codec, the per-cell field transforms, the resilient
JSON extractor, parameter resolution and the workflow executor.

Strings are modelled as `List Char` (`Str`); JavaScript exceptions are
modelled with `Except String`/`Option`; JavaScript objects holding task
parameters and task results are modelled as association lists of
`Val`ues.  External collaborators (the language model, the record
store, `JSON.parse`, the structured-output parser) are abstracted as
function parameters; everything else is translated line by line from
the source.
-/

abbrev Str := List Char

/-- JavaScript whitespace as relevant here (`\s`, `trim`). -/
def wsChar (c : Char) : Bool := c.isWhitespace

/-- `s.trim()`: strip leading and trailing whitespace (the trailing
run removed by working on the reversed string). -/
def trimChars (cs : Str) : Str :=
  ((cs.dropWhile wsChar).reverse.dropWhile wsChar).reverse

/-- Helper for `collapseWS`; the flag records whether the previous
character was whitespace (so the run produces a single space). -/
def collapseAux : Bool → Str → Str
  | _, [] => []
  | prevWS, c :: rest =>
    if wsChar c then
      if prevWS then collapseAux true rest
      else ' ' :: collapseAux true rest
    else c :: collapseAux false rest

/-- `s.replace(/\s+/g, ' ')`: collapse every whitespace run to one space. -/
def collapseWS (cs : Str) : Str := collapseAux false cs

/-- `s.toLowerCase()` (ASCII model). -/
def lowerChars (cs : Str) : Str := cs.map Char.toLower

/-- `s.split('\n')`. -/
def splitNL : Str → List Str
  | [] => [[]]
  | c :: rest =>
    if c = '\n' then [] :: splitNL rest
    else
      match splitNL rest with
      | [] => [[c]]
      | l :: ls => (c :: l) :: ls

/-- `data.replace(/\\n/g, '\n')`: turn each literal backslash-n pair
into a real newline (left to right, non-overlapping). -/
def normalizeNewlines : Str → Str
  | [] => []
  | [c] => [c]
  | c :: d :: rest =>
    if c = '\\' ∧ d = 'n' then '\n' :: normalizeNewlines rest
    else c :: normalizeNewlines (d :: rest)

/-- Numeric value of a digit string (`parseInt` on an all-digit string). -/
def natOfDigits (cs : Str) : Nat :=
  cs.foldl (fun acc c => 10 * acc + (c.toNat - '0'.toNat)) 0

/-- Does `needle` occur as a contiguous substring (`String.prototype.includes`)? -/
def containsSub (needle : Str) : Str → Bool
  | [] => needle.isEmpty
  | c :: rest => needle.isPrefixOf (c :: rest) || containsSub needle rest

/-! ## CSV codec (`parseCSV` / `reconstructCSV`, uni-agent.service.ts lines 53-122) -/

/-- `parseCSVLine`'s character loop: quote-aware field splitting.
`inQ` is the `inQuotes` flag, `cur` the `current` accumulator: a `"`
is an escaped quote when in quotes and doubled, else toggles the flag;
a `,` outside quotes ends the field; anything else accumulates. -/
def parseCSVLineAux : Bool → Str → Str → List Str
  | _, cur, [] => [trimChars cur]
  | true, cur, '"' :: '"' :: rest => parseCSVLineAux true (cur ++ ['"']) rest
  | inQ, cur, '"' :: rest => parseCSVLineAux (!inQ) cur rest
  | false, cur, ',' :: rest => trimChars cur :: parseCSVLineAux false [] rest
  | inQ, cur, c :: rest => parseCSVLineAux inQ (cur ++ [c]) rest

/-- Parse a single CSV line handling quotes; fields are trimmed. -/
def parseCSVLine (line : Str) : List Str := parseCSVLineAux false [] line

/-- Pad a short row with empty strings and truncate a long row, so that
the result has exactly `hc` cells (the executor's deliberate lossy policy). -/
def padTruncRow (hc : Nat) (cells : List Str) : List Str :=
  (cells ++ List.replicate (hc - cells.length) []).take hc

/-- The header/row table produced by the CSV codec. -/
structure CSVTable where
  headers : List Str
  rows : List (List Str)
deriving DecidableEq, Repr

/-- `parseCSV(data)`: normalize literal backslash-n, trim, split into
non-blank lines, require at least a header and one row (else throw,
modelled as `none`), lower-case the headers, and pad/truncate every
row to the header count. -/
def parseCSV (data : Str) : Option CSVTable :=
  let normalizedData := normalizeNewlines data
  let lines := (splitNL (trimChars normalizedData)).filter
    (fun l => 0 < (trimChars l).length)
  match lines with
  | l0 :: l1 :: rest =>
    let headers := (parseCSVLine l0).map lowerChars
    some ⟨headers,
      (l1 :: rest).map (fun line => padTruncRow headers.length (parseCSVLine line))⟩
  | _ => none

/-- `Array.prototype.join(sep)` for a single-character separator. -/
def joinSep (c : Char) : List Str → Str
  | [] => []
  | [x] => x
  | x :: y :: rest => x ++ c :: joinSep c (y :: rest)

/-- `reconstructCSV(headers, rows)`: comma-join each row, newline-join
all rows with the header first (no quoting). -/
def reconstructCSV (headers : List Str) (rows : List (List Str)) : Str :=
  joinSep '\n' ((joinSep ',' headers) :: rows.map (joinSep ','))

example : parseCSV "a,B\n 1 ,2,3\nx".data =
    some ⟨[['a'], ['b']], [[['1'], ['2']], [['x'], []]]⟩ := by decide

example : parseCSV "a,b".data = none := by decide

example :
    parseCSV "h\n\"x,y\",z".data = some ⟨[['h']], [[['x', ',', 'y']]]⟩ := by
  decide

/-! ## Field transforms: the `clean` and `validate` tools
(uni-agent.service.ts lines 376-408 and 497-593) -/

/-- The case-insensitive null-sentinel alternatives of
`/^(NULL|N\/A|null|na|n\/a|PENDING|TBD|undefined|nil|none|--|)$/gi`,
lower-cased (the regex is anchored, so it is a full-string match). -/
def nullSentinels : List Str :=
  ["null".data, "n/a".data, "na".data, "pending".data, "tbd".data,
   "undefined".data, "nil".data, "none".data, "--".data, [] ]

def isNullSentinel (cell : Str) : Bool := nullSentinels.contains (lowerChars cell)

/-- Per-cell body of the `clean` tool: a null sentinel becomes the
literal `Unknown`; any other cell has whitespace runs collapsed to one
space and is trimmed. -/
def cellClean (cell : Str) : Str :=
  if isNullSentinel cell then "Unknown".data
  else trimChars (collapseWS cell)

/-- The `clean` pass at the table level (spec section 4.2: each field
transform takes `(headers, rows)` to `(headers, rows)`); the string
tool wraps this between `parseCSV` and `reconstructCSV`. -/
def clean (t : CSVTable) : CSVTable :=
  ⟨t.headers, t.rows.map (fun row => row.map cellClean)⟩

/-- `/^\d+$/`. -/
def allDigits (cs : Str) : Bool := !cs.isEmpty && cs.all Char.isDigit

/-- `/\d/`. -/
def hasDigit (cs : Str) : Bool := cs.any Char.isDigit

def emailLocalChar (c : Char) : Bool := c.isAlphanum || c = '.' || c = '_' || c = '-'

def emailDomChar (c : Char) : Bool := c.isAlphanum || c = '.' || c = '-'

/-- The domain half `[a-zA-Z0-9.-]+\.[a-zA-Z]{2,}$` of the strict
email pattern: some split point gives a non-empty domain-char part, a
dot, and at least two letters. -/
def domainMatch (cs : Str) : Bool :=
  (List.range cs.length).any (fun i =>
    match cs.drop i with
    | '.' :: y =>
      !(cs.take i).isEmpty && (cs.take i).all emailDomChar &&
        decide (2 ≤ y.length) && y.all Char.isAlpha
    | _ => false)

/-- `validEmailPattern = /^[a-zA-Z0-9._-]+@[a-zA-Z0-9.-]+\.[a-zA-Z]{2,}$/`. -/
def emailMatch (cs : Str) : Bool :=
  let loc := cs.takeWhile (· ≠ '@')
  match cs.drop loc.length with
  | '@' :: dom => !loc.isEmpty && loc.all emailLocalChar && domainMatch dom
  | _ => false

/-- `datePattern = /^(\d{4})-(\d{2})-(\d{2})$/` with its capture groups. -/
def parseDateYMD (cs : Str) : Option (Nat × Nat × Nat) :=
  match cs with
  | [a, b, c, d, '-', e, f, '-', g, h] =>
    if [a, b, c, d, e, f, g, h].all Char.isDigit then
      some (natOfDigits [a, b, c, d], natOfDigits [e, f], natOfDigits [g, h])
    else none
  | _ => none

/-- `phonePattern = /^(\d{3})-(\d{3})-(\d{4})$/` with its capture groups. -/
def parsePhone (cs : Str) : Option (Str × Str × Str) :=
  match cs with
  | [a, b, c, '-', d, e, f, '-', g, h, i, j] =>
    if [a, b, c, d, e, f, g, h, i, j].all Char.isDigit then
      some ([a, b, c], [d, e, f], [g, h, i, j])
    else none
  | _ => none

/-- `/^\d+(\.\d{3})?$/`. -/
def amountMatch (cs : Str) : Bool :=
  let ds := cs.takeWhile Char.isDigit
  !ds.isEmpty &&
    (match cs.drop ds.length with
     | [] => true
     | '.' :: rest => decide (rest.length = 3) && rest.all Char.isDigit
     | _ => false)

/-- Email-column check; `some` models the early `return '[INVALID_EMAIL]'`. -/
def validateEmailStep (header cell : Str) : Option Str :=
  if header = "email".data ∨ containsSub "email".data header then
    if ¬ emailMatch cell ∧ lowerChars cell ≠ "unknown".data then
      some "[INVALID_EMAIL]".data
    else none
  else none

/-- Age-column check: non-numeric (and not `Unknown`), then range 0-120. -/
def validateAgeStep (header cell : Str) : Option Str :=
  if header = "age".data ∨ containsSub "age".data header then
    if ¬ allDigits cell ∧ lowerChars cell ≠ "unknown".data then
      some "[INVALID_AGE]".data
    else if allDigits cell ∧ (natOfDigits cell < 0 ∨ 120 < natOfDigits cell) then
      some "[INVALID_AGE]".data
    else none
  else none

/-- Date-column check: well-formed `YYYY-MM-DD` gets range/month-length
checks; otherwise any cell holding a digit is invalid. -/
def validateDateStep (header cell : Str) : Option Str :=
  if header = "date".data ∨ containsSub "date".data header then
    match parseDateYMD cell with
    | some (y, m, d) =>
      if lowerChars cell ≠ "unknown".data then
        if m < 1 ∨ 12 < m ∨ d < 1 ∨ 31 < d ∨ y < 1900 ∨ 2100 < y then
          some "[INVALID_DATE]".data
        else if m = 2 ∧ 29 < d then some "[INVALID_DATE]".data
        else if (m = 4 ∨ m = 6 ∨ m = 9 ∨ m = 11) ∧ 30 < d then
          some "[INVALID_DATE]".data
        else none
      else none
    | none =>
      if lowerChars cell ≠ "unknown".data ∧ hasDigit cell then
        some "[INVALID_DATE]".data
      else none
  else none

/-- Phone-column check: `NNN-NNN-NNNN` with area code not starting 0/1. -/
def validatePhoneStep (header cell : Str) : Option Str :=
  if header = "phone".data ∨ containsSub "phone".data header then
    match parsePhone cell with
    | some (area, _, _) =>
      if area.head? = some '0' ∨ area.head? = some '1' then
        some "[INVALID_PHONE]".data
      else none
    | none =>
      if lowerChars cell ≠ "unknown".data ∧ hasDigit cell then
        some "[INVALID_PHONE]".data
      else none
  else none

/-- Salary/amount/price-column check. -/
def validateAmountStep (header cell : Str) : Option Str :=
  if header = "salary".data ∨ header = "amount".data ∨ header = "price".data ∨
      containsSub "salary".data header ∨ containsSub "amount".data header ∨
      containsSub "price".data header then
    if amountMatch cell then some "[INVALID_AMOUNT]".data else none
  else none

/-- Per-cell body of the `validate` tool: the column-scoped checks run
in source order, the first failing one replacing the cell with its
sentinel tag (`idx >= headers.length` returns the cell unchanged). -/
def cellValidate (headers : List Str) (idx : Nat) (cell : Str) : Str :=
  if headers.length ≤ idx then cell
  else
    let header := (headers.get? idx).getD []
    match validateEmailStep header cell with
    | some s => s
    | none =>
      match validateAgeStep header cell with
      | some s => s
      | none =>
        match validateDateStep header cell with
        | some s => s
        | none =>
          match validatePhoneStep header cell with
          | some s => s
          | none =>
            match validateAmountStep header cell with
            | some s => s
            | none => cell

/-- The `validate` tool: empty input returns the empty string; a CSV
parse failure returns the input unchanged; otherwise every cell is
validated against its column header and the table is reconstructed. -/
def validate (data : Str) : Str :=
  if data.isEmpty then []
  else
    match parseCSV data with
    | some t =>
      reconstructCSV t.headers
        (t.rows.map (fun row => row.mapIdx (fun idx cell => cellValidate t.headers idx cell)))
    | none => data

example :
    validate "name,age\nJohn,200\nJane,30".data =
      "name,age\nJohn,[INVALID_AGE]\nJane,30".data := by decide

example : cellClean "  null ".data = "null".data := by decide
example : cellClean "null".data = "Unknown".data := by decide

/-! ## JavaScript values, parameter bags and results

Task parameters, the ambient context and task results are JavaScript
objects/strings; we model the value universe needed by the core as
`Val` and objects as association lists. -/

inductive Val where
  | str : String → Val
  | num : Nat → Val
  | arr : List Val → Val
  | obj : List (String × Val) → Val
deriving Repr

/-- Structural equality on `Val` (the derive handler does not support
this nested inductive). -/
def Val.beq : Val → Val → Bool
  | .str a, .str b => a == b
  | .num a, .num b => a == b
  | .arr a, .arr b => beqList a b
  | .obj a, .obj b => beqObj a b
  | _, _ => false
where
  beqList : List Val → List Val → Bool
    | [], [] => true
    | x :: xs, y :: ys => Val.beq x y && beqList xs ys
    | _, _ => false
  beqObj : List (String × Val) → List (String × Val) → Bool
    | [], [] => true
    | (k, x) :: xs, (l, y) :: ys => k == l && Val.beq x y && beqObj xs ys
    | _, _ => false

instance : BEq Val := ⟨Val.beq⟩

/-- JavaScript truthiness for the values we model (`''` and `0` are
falsy; arrays and objects are always truthy). -/
def truthy : Val → Bool
  | .str s => s ≠ ""
  | .num n => n ≠ 0
  | .arr _ => true
  | .obj _ => true

/-- Property access `v[field]`; `none` models `undefined`. -/
def getField (v : Val) (field : String) : Option Val :=
  match v with
  | .obj l => l.lookup field
  | _ => none

/-- `a || b` on an optionally-defined left operand. -/
def jsOrOpt (a : Option Val) (b : Option Val) : Option Val :=
  match a with
  | some v => if truthy v then some v else b
  | none => b

/-- `a || dflt` with a definite default. -/
def jsOrV (a : Option Val) (dflt : Val) : Val :=
  match a with
  | some v => if truthy v then v else dflt
  | none => dflt

abbrev Params := List (String × Val)

def getParam (params : Params) (k : String) : Option Val := params.lookup k

/-- Is `params.k` truthy (absent and `undefined` count as falsy)? -/
def truthyParam (params : Params) (k : String) : Bool :=
  (getParam params k).elim false truthy

/-- JavaScript property assignment `obj[k] = v` on the assoc-list
model: overwrite in place if present, append otherwise. -/
def setParam (params : Params) (k : String) (v : Val) : Params :=
  if (params.lookup k).isSome then
    params.map (fun kv => if kv.1 = k then (kv.1, v) else kv)
  else params ++ [(k, v)]

/-! ## Resilient JSON extractor (`parseJSON`, uni-agent.service.ts lines 669-824) -/

/-- One global-regex pass removing every occurrence of `marker`
followed by a greedy whitespace run (the `cleaned.replace(/```json\s*/g, '')`
and `/```\s*/g` steps); fuelled by the input length to stay structural. -/
def stripMarkerFuel (marker : Str) : Nat → Str → Str
  | 0, cs => cs
  | _ + 1, [] => []
  | fuel + 1, c :: rest =>
    if marker.isPrefixOf (c :: rest) then
      stripMarkerFuel marker fuel (((c :: rest).drop marker.length).dropWhile wsChar)
    else c :: stripMarkerFuel marker fuel rest

def stripMarker (marker cs : Str) : Str := stripMarkerFuel marker cs.length cs

/-- `cleaned.substring(jsonStart, jsonEnd + 1)` when both the first `{`
and the last `}` exist (JavaScript `substring` swaps its endpoints when
given in reverse order); otherwise the text is left whole. -/
def sliceBraces (cs : Str) : Str :=
  match cs.findIdx? (· = '{'), cs.reverse.findIdx? (· = '}') with
  | some s, some jr =>
    let e := cs.length - 1 - jr + 1
    (cs.take (max s e)).drop (min s e)
  | _, _ => cs

/-- The deterministic cleanup pipeline in front of `JSON.parse`: trim,
strip fenced-code-block markers, slice between first `{` and last `}`. -/
def cleanLLMText (text : Str) : Str :=
  sliceBraces (stripMarker "```".data (stripMarker "```json".data (trimChars text)))

/-- `getDefaultResponse()`: the fixed shape-appropriate default object
returned when every parsing path has failed. -/
def getDefaultResponse : Val :=
  .obj [("insights", .arr [.str "Unable to parse full insights from LLM response"]),
        ("trends", .arr [.str "Data analysis in progress"]),
        ("anomalies", .arr []),
        ("recommendations", .arr [.str "Review data quality and retry analysis"]),
        ("summary", .str "Analysis could not be completed"),
        ("key_points", .arr [.str "Parsing error occurred"]),
        ("data_quality", .str "unknown"),
        ("record_count", .num 0)]

/-- `parseJSON(output, parser)`: clean the text, apply
`fixMalformedJSON` and `JSON.parse`; on failure retry with the
structured-output parser on the original text; on failure again return
the fixed default.  `fixMalformedJSON` (lines 720-808, pure string
rewriting wrapped in its own try/catch), `JSON.parse` and
`parser.parse` are abstracted as function parameters — the theorems
below hold for every choice of them, exceptions being modelled by
`Option`. -/
def parseJSON (fixMalformedJSON : Str → Str) (jsonParse : Str → Option Val)
    (parserParse : Str → Option Val) (text : Str) : Val :=
  match jsonParse (fixMalformedJSON (cleanLLMText text)) with
  | some v => v
  | none =>
    match parserParse text with
    | some v => v
    | none => getDefaultResponse

/-! ## Parameter resolver (`enrichParams` / `injectContextIntoParams`,
uni-agent.service.ts lines 1011-1080) -/

/-- `\w`. -/
def wordChar (c : Char) : Bool := c.isAlphanum || c = '_'

/-- Attempt to read `task.<digits>.<wordchars>` at the head of the
string (the mandatory core of `/\{?\{?task\.(\d+)\.(\w+)\}?\}?/`; the
optional braces around it never change the captured groups, and
`match[0]` is used by the source only for logging and for an
`includes('task.')` test that always succeeds). -/
def tryTaskRef (cs : Str) : Option (Nat × String) :=
  if "task.".data.isPrefixOf cs then
    let rest := cs.drop 5
    let ds := rest.takeWhile Char.isDigit
    if ds.isEmpty then none
    else
      match rest.drop ds.length with
      | '.' :: rest2 =>
        let f := rest2.takeWhile wordChar
        if f.isEmpty then none else some (natOfDigits ds, String.mk f)
      | _ => none
  else none

/-- Leftmost match of the task-placeholder pattern, as
`value.match(...)` (no global flag) returns the first match. -/
def findTaskRef : Str → Option (Nat × String)
  | [] => none
  | c :: rest =>
    match tryTaskRef (c :: rest) with
    | some r => some r
    | none => findTaskRef rest

/-- `enrichParams(params, previousResults)`: for each string-valued
parameter holding a task placeholder, when the referenced task result
exists (and is truthy) and defines the field, the whole parameter
value is overwritten with that field's value; otherwise the value is
left as it was (with a logged diagnostic). -/
def enrichParams (params : Params) (previousResults : List Val) : Params :=
  params.map (fun kv =>
    match kv.2 with
    | .str s =>
      match findTaskRef s.data with
      | some (taskIdx, field) =>
        match previousResults.get? taskIdx with
        | some taskResult =>
          if truthy taskResult then
            match getField taskResult field with
            | some fv => (kv.1, fv)
            | none => kv
          else kv
        | none => kv
      | none => kv
    | _ => kv)

/-- Attempt to read `{{context.<wordchars>}}` or `${context.<wordchars>}}`
at the head of the string (`/(?:\{\{|\$\{)context\.(\w+)\}\}/`). -/
def tryContextRef (cs : Str) : Option String :=
  if "\x7b\x7bcontext.".data.isPrefixOf cs ∨ "$\x7bcontext.".data.isPrefixOf cs then
    let rest := cs.drop 10
    let f := rest.takeWhile wordChar
    if f.isEmpty then none
    else
      match rest.drop f.length with
      | '}' :: '}' :: _ => some (String.mk f)
      | _ => none
  else none

/-- Leftmost match of the context-placeholder pattern. -/
def findContextRef : Str → Option String
  | [] => none
  | c :: rest =>
    match tryContextRef (c :: rest) with
    | some r => some r
    | none => findContextRef rest

/-- First half of `injectContextIntoParams`: resolve context
placeholders inside string parameter values (a defined context field
replaces the whole value; an undefined one is only logged). -/
def resolveContextRefs (params : Params) (ctx : Params) : Params :=
  params.map (fun kv =>
    match kv.2 with
    | .str s =>
      match findContextRef s.data with
      | some field =>
        match ctx.lookup field with
        | some cv => (kv.1, cv)
        | none => kv
      | none => kv
    | _ => kv)

/-- `if (context.fileData && !enriched.fileData && !enriched.data)
enriched.fileData = context.fileData` (lines 1064-1067). -/
def injectFileDataStep (params : Params) (ctx : Params) : Params :=
  match ctx.lookup "fileData" with
  | some v =>
    if truthy v ∧ ¬ truthyParam params "fileData" ∧ ¬ truthyParam params "data" then
      setParam params "fileData" v
    else params
  | none => params

/-- `if (context.filename && !enriched.filename)
enriched.filename = context.filename` (lines 1069-1072). -/
def injectFilenameStep (params : Params) (ctx : Params) : Params :=
  match ctx.lookup "filename" with
  | some v =>
    if truthy v ∧ ¬ truthyParam params "filename" then setParam params "filename" v
    else params
  | none => params

/-- `if (context.recordId && !enriched.recordId)
enriched.recordId = context.recordId` (lines 1074-1077). -/
def injectRecordIdStep (params : Params) (ctx : Params) : Params :=
  match ctx.lookup "recordId" with
  | some v =>
    if truthy v ∧ ¬ truthyParam params "recordId" then setParam params "recordId" v
    else params
  | none => params

/-- Second half of `injectContextIntoParams` (lines 1063-1077): the
three sequential auto-injection statements. -/
def autoInjectContext (params : Params) (ctx : Params) : Params :=
  injectRecordIdStep (injectFilenameStep (injectFileDataStep params ctx) ctx) ctx

/-- `injectContextIntoParams(params, context)`: placeholder resolution
followed by the auto-injection of the fixed context fields.  (The
orchestrator-service twin at lines 210-237 lacks the `recordId`
injection and instead stashes the whole context under `_context`.) -/
def injectContextIntoParams (params : Params) (ctx : Params) : Params :=
  autoInjectContext (resolveContextRefs params ctx) ctx

example :
    enrichParams [("recordId", .str "use {task.0.id} here"), ("x", .str "keep")]
      [.obj [("id", .str "R1")]] =
      [("recordId", .str "R1"), ("x", .str "keep")] := rfl

example :
    injectContextIntoParams [] [("fileData", .str "CSV")] =
      [("fileData", .str "CSV")] := rfl

/-! ## Workflow executor (`executeWorkflow` / `executeTask` and the
action dispatchers, uni-agent.service.ts lines 874-1196) -/

inductive TaskStatus where
  | pending
  | running
  | completed
  | failed
deriving DecidableEq, Repr

/-- One task of a workflow plan (interface `AgentTask`). -/
structure AgentTask where
  agent : String
  action : String
  params : Params
  status : TaskStatus
  result : Option Val
  error : Option String
  dependencies : List Nat
deriving Repr

/-- The external collaborators reached from the action dispatchers
(record store, language-model driven processing and report synthesis),
abstracted as injected functions; `.error` models a thrown exception. -/
structure AgentHandlers where
  analyzeData : Option Val → Except String Val
  getRecordById : Val → Except String Val
  findRecordByFilename : Val → Except String Val
  analyzeAndProcess : Val → Val → Option Val → Except String Val
  generateReport : Option Val → Option Val → Option Val → Option Val → Except String Val
  createSummary : Option Val → Option Val → Option Val → Except String Val
  exportPdf : Val → Except String Val
  formatReportAsMarkdown : Val → Except String Val
  formatReportAsJson : Val → Except String Val
  getDataStatistics : Val → Except String Val

/-- `executeDataTask(action, params)` (lines 1082-1122): dispatch on
the data-capability action names, with the source's missing-parameter
guards; an unrecognized action throws `Unknown data task`. -/
def executeDataTask (H : AgentHandlers) (action : String) (params : Params) :
    Except String Val :=
  if action = "analyze_data" then H.analyzeData (getParam params "data")
  else if action = "get_by_id" then
    match getParam params "id" with
    | some v => if truthy v then H.getRecordById v else .error "Missing required parameter: id"
    | none => .error "Missing required parameter: id"
  else if action = "get_by_filename" then
    match getParam params "filename" with
    | some v =>
      if truthy v then H.findRecordByFilename v
      else .error "Missing required parameter: filename"
    | none => .error "Missing required parameter: filename"
  else if action = "process_data" ∨ action = "upload_and_process" then
    let data := jsOrOpt (getParam params "fileData") (getParam params "data")
    let filename := jsOrV (getParam params "filename") (.str "uploaded_file.csv")
    let tags := getParam params "tags"
    match data with
    | some d =>
      if truthy d then H.analyzeAndProcess d filename tags
      else .error "No data provided for processing. Ensure fileData or data is in params."
    | none => .error "No data provided for processing. Ensure fileData or data is in params."
  else .error ("Unknown data task: " ++ action)

/-- `executeReportTask(action, params)` (lines 1124-1186): dispatch on
the report-capability action names; each export action re-generates
the report and formats it; an unrecognized action throws
`Unknown report task`. -/
def executeReportTask (H : AgentHandlers) (action : String) (params : Params) :
    Except String Val :=
  if action = "generate_report" then
    if ¬ truthyParam params "recordId" ∧ ¬ truthyParam params "filename" ∧
        ¬ truthyParam params "data" then
      .error "Missing required parameter: recordId, filename, or data"
    else
      H.generateReport (getParam params "recordId") (getParam params "filename")
        (getParam params "data") (some (jsOrV (getParam params "reportType") (.str "standard")))
  else if action = "create_summary" then
    if ¬ truthyParam params "recordId" ∧ ¬ truthyParam params "filename" ∧
        ¬ truthyParam params "data" then
      .error "Missing required parameter: recordId, filename, or data"
    else
      H.createSummary (getParam params "recordId") (getParam params "filename")
        (getParam params "data")
  else if action = "export_pdf" then
    (H.generateReport (getParam params "recordId") (getParam params "filename")
      (getParam params "data") (getParam params "reportType")).bind H.exportPdf
  else if action = "export_markdown" then
    (H.generateReport (getParam params "recordId") (getParam params "filename")
      (getParam params "data") (getParam params "reportType")).bind H.formatReportAsMarkdown
  else if action = "export_json" then
    (H.generateReport (getParam params "recordId") (getParam params "filename")
      (getParam params "data") (getParam params "reportType")).bind H.formatReportAsJson
  else if action = "get_statistics" then
    match getParam params "data" with
    | some v => if truthy v then H.getDataStatistics v else .error "Missing required parameter: data"
    | none => .error "Missing required parameter: data"
  else .error ("Unknown report task: " ++ action)

/-- `executeAutomationTask(action, params)` (lines 1188-1196): a
placeholder that succeeds for every action name. -/
def executeAutomationTask (action : String) (params : Params) : Except String Val :=
  .ok (.obj [("message", .str ("Automation task '" ++ action ++ "' executed (placeholder)")),
             ("params", .obj params)])

def isExportTask (action : String) : Bool :=
  action = "export_pdf" || action = "export_markdown" || action = "export_json"

/-- `hasUnresolvedParams`: some string parameter still contains `{task.`. -/
def hasUnresolvedParams (params : Params) : Bool :=
  params.any (fun kv =>
    match kv.2 with
    | .str s => containsSub "\x7btask.".data s.data
    | _ => false)

/-- Does a result look like a report (`depResult && (depResult.metadata
|| depResult.sections)`)? -/
def looksLikeReport (r : Val) : Bool :=
  truthy r && ((getField r "metadata").elim false truthy ||
    (getField r "sections").elim false truthy)

/-- `findGenerateReportResult`: first report-shaped dependency result,
else the most recent report-shaped result overall. -/
def findGenerateReportResult (task : AgentTask) (previousResults : List Val) : Option Val :=
  match task.dependencies.find?
      (fun depIdx => (previousResults.get? depIdx).elim false looksLikeReport) with
  | some depIdx => previousResults.get? depIdx
  | none => previousResults.reverse.find? looksLikeReport

/-- `inheritParamsFromGenerateReport`: the export-task compatibility
shim inheriting `recordId`/`filename`/`data`/`reportType` from a
report-shaped prior result (undefined stays undefined, which behaves
like an absent key). -/
def inheritParamsFromGenerateReport (task : AgentTask) (previousResults : List Val)
    (currentParams : Params) : Params :=
  match findGenerateReportResult task previousResults with
  | some g =>
    let step := fun (acc : Params) (k : String) =>
      match jsOrOpt (getField g k) (getParam currentParams k) with
      | some v => setParam acc k v
      | none => acc
    step (step (step (step currentParams "recordId") "filename") "data") "reportType"
  | none => currentParams

/-- The parameter-resolution pipeline at the top of `executeTask`
(lines 920-934): task-placeholder resolution, the export-task
inheritance shim, then context injection. -/
def resolveTaskParams (task : AgentTask) (previousResults : List Val)
    (context : Option Params) : Params :=
  let params := enrichParams task.params previousResults
  let params :=
    if isExportTask task.action ∧ hasUnresolvedParams params then
      inheritParamsFromGenerateReport task previousResults params
    else params
  match context with
  | some ctx => injectContextIntoParams params ctx
  | none => params

/-- `executeTask(task, previousResults, context)` (lines 915-949):
parameter resolution, then dispatch on the agent class. -/
def executeTask (H : AgentHandlers) (task : AgentTask) (previousResults : List Val)
    (context : Option Params) : Except String Val :=
  let params := resolveTaskParams task previousResults context
  if task.agent = "data" then executeDataTask H task.action params
  else if task.agent = "report" then executeReportTask H task.action params
  else if task.agent = "automation" then executeAutomationTask task.action params
  else .error ("Unknown agent: " ++ task.agent)

/-- The `{ error: msg }` object pushed into the results list on failure. -/
def errObj (msg : String) : Val := .obj [("error", .str msg)]

/-- `results[depIdx]?.error` truthiness. -/
def hasErrorField (r : Val) : Bool := (getField r "error").elim false truthy

/-- The dependency loop at the top of `executeWorkflow` (lines
882-890): each failed dependency marks the task failed and pushes an
error result, but the loop's `continue` only restarts the inner loop,
so control always falls through to the task execution that follows. -/
def depCheckFold (task : AgentTask) (results : List Val) : AgentTask × List Val :=
  task.dependencies.foldl
    (fun acc depIdx =>
      match acc.2.get? depIdx with
      | some r =>
        if hasErrorField r then
          let msg := "Dependency task " ++ toString depIdx ++ " failed"
          ({acc.1 with status := .failed, error := some msg}, acc.2 ++ [errObj msg])
        else acc
      | none => acc)
    (task, results)

/-- The body of `executeWorkflow`'s task loop (lines 878-910),
threading the mutable `results` array and the task-status mutations;
`done` holds the already-visited tasks.  A failure of a `data`-class
task aborts the whole workflow (`Critical task failed`), modelled by
returning `.error` together with the task states at that moment
(the still-unvisited tasks keep their previous status). -/
def executeWorkflowGo (H : AgentHandlers) (context : Option Params) :
    List AgentTask → List AgentTask → List Val →
      List AgentTask × Except String (List Val)
  | [], done, results => (done, .ok results)
  | task :: rest, done, results =>
    let checked := depCheckFold task results
    let t2 := {checked.1 with status := .running}
    match executeTask H t2 checked.2 context with
    | .ok v =>
      executeWorkflowGo H context rest
        (done ++ [{t2 with status := .completed, result := some v}]) (checked.2 ++ [v])
    | .error m =>
      let t3 := {t2 with status := .failed, error := some m}
      if task.agent = "data" then
        (done ++ t3 :: rest, .error ("Critical task failed: " ++ m))
      else
        executeWorkflowGo H context rest (done ++ [t3]) (checked.2 ++ [errObj m])

/-- `executeWorkflow(plan, context)`: run the plan's tasks in order. -/
def executeWorkflow (H : AgentHandlers) (plan : List AgentTask)
    (context : Option Params) : List AgentTask × Except String (List Val) :=
  executeWorkflowGo H context plan [] []

/-! ## Concrete handler stubs used by the executor theorems -/

/-- Simple always-succeeding collaborators, used to instantiate the
executor at concrete plans. -/
def stubHandlers : AgentHandlers :=
  ⟨fun _ => .ok (.str "analyzed"),
   fun _ => .ok (.obj [("id", .str "R1")]),
   fun _ => .ok (.obj [("id", .str "R1")]),
   fun _ _ _ => .ok (.obj [("recordId", .str "R1")]),
   fun _ _ _ _ => .ok (.obj [("metadata", .obj []), ("summary", .str "ok")]),
   fun _ _ _ => .ok (.str "summary"),
   fun r => .ok r,
   fun r => .ok r,
   fun r => .ok r,
   fun _ => .ok (.str "stats-ok")⟩

/-! ## C3 -/

/-- C3: for every language-model response text (and every behaviour of
the abstracted `fixMalformedJSON`, `JSON.parse` and structured-output
parser), `parseJSON` returns a value and never lets an exception
escape: the result is the repaired `JSON.parse` value, or the
structured-output parser's fallback value, or the fixed default object
whose `anomalies` list is empty and whose `summary` is
`Analysis could not be completed`. -/
theorem parseJSON_never_raises (fix : Str → Str) (jp pp : Str → Option Val) (text : Str) :
    (∃ v, jp (fix (cleanLLMText text)) = some v ∧ parseJSON fix jp pp text = v) ∨
    (jp (fix (cleanLLMText text)) = none ∧
      ∃ v, pp text = some v ∧ parseJSON fix jp pp text = v) ∨
    (jp (fix (cleanLLMText text)) = none ∧ pp text = none ∧
      parseJSON fix jp pp text = getDefaultResponse ∧
      getField getDefaultResponse "anomalies" = some (.arr []) ∧
      getField getDefaultResponse "summary" = some (.str "Analysis could not be completed")) := by
  cases h1 : jp (fix (cleanLLMText text)) with
  | some v => exact Or.inl ⟨v, rfl, by simp [parseJSON, h1]⟩
  | none =>
    cases h2 : pp text with
    | some v => exact Or.inr (Or.inl ⟨rfl, v, rfl, by simp [parseJSON, h1, h2]⟩)
    | none => exact Or.inr (Or.inr ⟨rfl, rfl, by simp [parseJSON, h1, h2], rfl, rfl⟩)

/-! ## C8 -/

/-- C8: on the input `name,age\nJohn,200\nJane,30` the validate pass
replaces row 1's age cell by `[INVALID_AGE]` (200 is outside 0-120)
and leaves row 2 untouched. -/
theorem validate_marks_out_of_range_age :
    validate "name,age\nJohn,200\nJane,30".data =
      "name,age\nJohn,[INVALID_AGE]\nJane,30".data := by decide

/-! ## C1 -/

/-- C1: at a concrete two-task plan where task 0 fails and task 1
depends on it, the executor does record exactly
`Dependency task 0 failed` for task 1, but the `continue` in the
dependency loop (uni-agent.service.ts line 888, identically
orchestrator.service.ts line 180) only restarts the inner loop, so
control falls through: task 1's tool IS invoked, its result
(`stats-ok`) is pushed as a third entry of the results list, and the
task ends with status `completed` — contradicting the claim that the
tool is never invoked and that execution merely continues with the
next task. -/
theorem executeWorkflow_dependency_failure_still_runs_task :
    executeWorkflow stubHandlers
      [⟨"report", "bogus_action", [], .pending, none, none, []⟩,
       ⟨"report", "get_statistics", [("data", .str "x")], .pending, none, none, [0]⟩]
      none =
    ([⟨"report", "bogus_action", [], .failed, none,
        some "Unknown report task: bogus_action", []⟩,
      ⟨"report", "get_statistics", [("data", .str "x")], .completed,
        some (.str "stats-ok"), some "Dependency task 0 failed", [0]⟩],
      .ok [errObj "Unknown report task: bogus_action",
           errObj "Dependency task 0 failed",
           .str "stats-ok"]) := rfl

/-! ## Association-list lemmas shared by the resolver theorems -/

theorem lookup_map_overwrite (p : Params) (k : String) (v : Val) :
    List.lookup k (p.map (fun kv => if kv.1 = k then (kv.1, v) else kv)) =
      (List.lookup k p).map (fun _ => v) := by
  induction p with
  | nil => rfl
  | cons hd tl ih =>
    obtain ⟨a, b⟩ := hd
    simp only [List.map_cons]
    by_cases h : a = k
    · rw [if_pos h]
      subst h
      simp [List.lookup, ih]
    · rw [if_neg h]
      have hb : (k == a) = false := beq_eq_false_iff_ne.mpr (fun he => h he.symm)
      simp [List.lookup, hb, ih]

theorem lookup_map_overwrite_other (p : Params) (k k' : String) (v : Val)
    (h : k' ≠ k) :
    List.lookup k' (p.map (fun kv => if kv.1 = k then (kv.1, v) else kv)) =
      List.lookup k' p := by
  induction p with
  | nil => rfl
  | cons hd tl ih =>
    obtain ⟨a, b⟩ := hd
    simp only [List.map_cons]
    by_cases hk : a = k
    · rw [if_pos hk]
      subst hk
      have hb : (k' == a) = false := beq_eq_false_iff_ne.mpr h
      simp [List.lookup, hb, ih]
    · rw [if_neg hk]
      cases hb : (k' == a) with
      | true => simp [List.lookup, hb]
      | false => simp [List.lookup, hb, ih]

theorem lookup_append_none {p : Params} {k : String} (q : Params)
    (h : List.lookup k p = none) : List.lookup k (p ++ q) = List.lookup k q := by
  induction p with
  | nil => rfl
  | cons hd tl ih =>
    obtain ⟨a, b⟩ := hd
    cases hb : (k == a) with
    | true => simp [List.lookup, hb] at h
    | false =>
      simp only [List.lookup, hb] at h
      simp only [List.cons_append, List.lookup, hb]
      exact ih h

theorem lookup_append_single_other (p : Params) (k k' : String) (v : Val)
    (h : k' ≠ k) : List.lookup k' (p ++ [(k, v)]) = List.lookup k' p := by
  induction p with
  | nil =>
    have hb : (k' == k) = false := beq_eq_false_iff_ne.mpr h
    simp [List.lookup, hb]
  | cons hd tl ih =>
    obtain ⟨a, b⟩ := hd
    cases hb : (k' == a) with
    | true => simp [List.lookup, hb]
    | false => simp [List.lookup, hb, ih]

theorem getParam_setParam_same (p : Params) (k : String) (v : Val) :
    getParam (setParam p k v) k = some v := by
  unfold getParam setParam
  by_cases h : (List.lookup k p).isSome
  · rw [if_pos h, lookup_map_overwrite]
    obtain ⟨w, hw⟩ := Option.isSome_iff_exists.mp h
    rw [hw]
    rfl
  · rw [if_neg h, lookup_append_none _ (Option.not_isSome_iff_eq_none.mp h)]
    simp [List.lookup]

theorem getParam_setParam_other (p : Params) (k k' : String) (v : Val)
    (h : k' ≠ k) : getParam (setParam p k v) k' = getParam p k' := by
  unfold getParam setParam
  by_cases hp : (List.lookup k p).isSome
  · rw [if_pos hp, lookup_map_overwrite_other p k k' v h]
  · rw [if_neg hp, lookup_append_single_other p k k' v h]

theorem truthyParam_setParam_other (p : Params) (k k' : String) (v : Val)
    (h : k' ≠ k) : truthyParam (setParam p k v) k' = truthyParam p k' := by
  unfold truthyParam
  rw [getParam_setParam_other p k k' v h]

theorem getParam_injectFileDataStep_other (p ctx : Params) (k : String)
    (h : k ≠ "fileData") : getParam (injectFileDataStep p ctx) k = getParam p k := by
  unfold injectFileDataStep
  cases ctx.lookup "fileData" with
  | none => rfl
  | some v =>
    show getParam
      (if truthy v = true ∧ ¬ truthyParam p "fileData" = true ∧ ¬ truthyParam p "data" = true then
        setParam p "fileData" v
      else p) k = getParam p k
    by_cases hc : truthy v = true ∧ ¬ truthyParam p "fileData" = true ∧ ¬ truthyParam p "data" = true
    · rw [if_pos hc]
      exact getParam_setParam_other p "fileData" k v h
    · rw [if_neg hc]

theorem getParam_injectFilenameStep_other (p ctx : Params) (k : String)
    (h : k ≠ "filename") : getParam (injectFilenameStep p ctx) k = getParam p k := by
  unfold injectFilenameStep
  cases ctx.lookup "filename" with
  | none => rfl
  | some v =>
    show getParam
      (if truthy v = true ∧ ¬ truthyParam p "filename" = true then
        setParam p "filename" v
      else p) k = getParam p k
    by_cases hc : truthy v = true ∧ ¬ truthyParam p "filename" = true
    · rw [if_pos hc]
      exact getParam_setParam_other p "filename" k v h
    · rw [if_neg hc]

theorem getParam_injectRecordIdStep_other (p ctx : Params) (k : String)
    (h : k ≠ "recordId") : getParam (injectRecordIdStep p ctx) k = getParam p k := by
  unfold injectRecordIdStep
  cases ctx.lookup "recordId" with
  | none => rfl
  | some v =>
    show getParam
      (if truthy v = true ∧ ¬ truthyParam p "recordId" = true then
        setParam p "recordId" v
      else p) k = getParam p k
    by_cases hc : truthy v = true ∧ ¬ truthyParam p "recordId" = true
    · rw [if_pos hc]
      exact getParam_setParam_other p "recordId" k v h
    · rw [if_neg hc]

theorem injectFileDataStep_sets (p ctx : Params) (v : Val)
    (h : ctx.lookup "fileData" = some v) (hv : truthy v)
    (h1 : truthyParam p "fileData" = false) (h2 : truthyParam p "data" = false) :
    getParam (injectFileDataStep p ctx) "fileData" = some v := by
  unfold injectFileDataStep
  simp only [h]
  rw [if_pos ⟨hv, by simp [h1], by simp [h2]⟩, getParam_setParam_same]

theorem injectFilenameStep_sets (p ctx : Params) (v : Val)
    (h : ctx.lookup "filename" = some v) (hv : truthy v)
    (h1 : truthyParam p "filename" = false) :
    getParam (injectFilenameStep p ctx) "filename" = some v := by
  unfold injectFilenameStep
  simp only [h]
  rw [if_pos ⟨hv, by simp [h1]⟩, getParam_setParam_same]

theorem injectRecordIdStep_sets (p ctx : Params) (v : Val)
    (h : ctx.lookup "recordId" = some v) (hv : truthy v)
    (h1 : truthyParam p "recordId" = false) :
    getParam (injectRecordIdStep p ctx) "recordId" = some v := by
  unfold injectRecordIdStep
  simp only [h]
  rw [if_pos ⟨hv, by simp [h1]⟩, getParam_setParam_same]

/-! ## C6 -/

/-- C6 (counterexample): with empty task parameters and a context
carrying `fileData`, `injectContextIntoParams` leaves the `data`
parameter unset — the context value is stored under the `fileData`
key, not injected as the task's `data` parameter as the claim
states. -/
theorem injectContext_puts_fileData_under_fileData_key :
    getParam (injectContextIntoParams [] [("fileData", Val.str "CSV")]) "data" = none ∧
    getParam (injectContextIntoParams [] [("fileData", Val.str "CSV")]) "fileData" =
      some (Val.str "CSV") := ⟨rfl, rfl⟩

/-- C6 (amended): after placeholder substitution, when the context
carries a truthy `fileData` and the parameters set neither `fileData`
nor `data`, auto-injection stores the context's `fileData` value under
the task's `fileData` parameter (leaving `data` untouched); likewise a
truthy context `filename`/`recordId` is injected under its own key
whenever that parameter is not already truthy. -/
theorem injectContext_auto_fields (params ctx : Params) :
    (∀ v, ctx.lookup "fileData" = some v → truthy v →
      truthyParam params "fileData" = false → truthyParam params "data" = false →
      getParam (autoInjectContext params ctx) "fileData" = some v ∧
      getParam (autoInjectContext params ctx) "data" = getParam params "data") ∧
    (∀ v, ctx.lookup "filename" = some v → truthy v →
      truthyParam params "filename" = false →
      getParam (autoInjectContext params ctx) "filename" = some v) ∧
    (∀ v, ctx.lookup "recordId" = some v → truthy v →
      truthyParam params "recordId" = false →
      getParam (autoInjectContext params ctx) "recordId" = some v) := by
  refine ⟨fun v h hv h1 h2 => ⟨?_, ?_⟩, fun v h hv h1 => ?_, fun v h hv h1 => ?_⟩
  · unfold autoInjectContext
    rw [getParam_injectRecordIdStep_other _ _ _ (by decide),
      getParam_injectFilenameStep_other _ _ _ (by decide),
      injectFileDataStep_sets params ctx v h hv h1 h2]
  · unfold autoInjectContext
    rw [getParam_injectRecordIdStep_other _ _ _ (by decide),
      getParam_injectFilenameStep_other _ _ _ (by decide),
      getParam_injectFileDataStep_other _ _ _ (by decide)]
  · unfold autoInjectContext
    have hpres : truthyParam (injectFileDataStep params ctx) "filename" =
        truthyParam params "filename" := by
      unfold truthyParam
      rw [getParam_injectFileDataStep_other _ _ _ (by decide)]
    rw [getParam_injectRecordIdStep_other _ _ _ (by decide),
      injectFilenameStep_sets _ ctx v h hv (hpres.trans h1)]
  · unfold autoInjectContext
    have hpres1 : truthyParam (injectFileDataStep params ctx) "recordId" =
        truthyParam params "recordId" := by
      unfold truthyParam
      rw [getParam_injectFileDataStep_other _ _ _ (by decide)]
    have hpres2 : truthyParam (injectFilenameStep (injectFileDataStep params ctx) ctx)
        "recordId" = truthyParam params "recordId" := by
      unfold truthyParam
      unfold truthyParam at hpres1
      rw [getParam_injectFilenameStep_other _ _ _ (by decide)]
      exact hpres1
    rw [injectRecordIdStep_sets _ ctx v h hv (hpres2.trans h1)]

/-- C6 (witness): the amended theorem applied at a concrete context
carrying all three auto-injected fields and empty task parameters. -/
theorem injectContext_auto_fields_witness :
    getParam (autoInjectContext []
      [("fileData", Val.str "D"), ("filename", Val.str "f.csv"),
       ("recordId", Val.str "R")]) "fileData" = some (Val.str "D") ∧
    getParam (autoInjectContext []
      [("fileData", Val.str "D"), ("filename", Val.str "f.csv"),
       ("recordId", Val.str "R")]) "filename" = some (Val.str "f.csv") ∧
    getParam (autoInjectContext []
      [("fileData", Val.str "D"), ("filename", Val.str "f.csv"),
       ("recordId", Val.str "R")]) "recordId" = some (Val.str "R") := by
  have h := injectContext_auto_fields []
    [("fileData", Val.str "D"), ("filename", Val.str "f.csv"), ("recordId", Val.str "R")]
  exact ⟨(h.1 _ rfl rfl rfl rfl).1, h.2.1 _ rfl rfl rfl, h.2.2 _ rfl rfl rfl⟩

/-! ## C2 -/

/-- C2: when the task at the head of the remaining plan throws during
execution (after its dependency bookkeeping), a `data`-class (critical)
task aborts the whole workflow with `Critical task failed: <message>`
and every later task is returned untouched (never executed), while a
`report`-class task merely has `{error}` recorded in the results and
execution continues with the rest of the plan. -/
theorem executeWorkflow_critical_abort_or_report_continue
    (H : AgentHandlers) (ctx : Option Params) (done rest : List AgentTask)
    (results : List Val) (task : AgentTask) (m : String)
    (herr : executeTask H {(depCheckFold task results).1 with status := .running}
        (depCheckFold task results).2 ctx = Except.error m) :
    (task.agent = "data" →
      executeWorkflowGo H ctx (task :: rest) done results =
        (done ++ {(depCheckFold task results).1 with
            status := .failed, error := some m} :: rest,
          Except.error ("Critical task failed: " ++ m))) ∧
    (task.agent = "report" →
      executeWorkflowGo H ctx (task :: rest) done results =
        executeWorkflowGo H ctx rest
          (done ++ [{(depCheckFold task results).1 with
              status := .failed, error := some m}])
          ((depCheckFold task results).2 ++ [errObj m])) := by
  constructor <;> intro hag <;>
    simp only [executeWorkflowGo, herr, hag] <;> simp

/-- C2 (witness): a concrete two-task plan whose first task is a
`data` task throwing `Missing required parameter: id`; the workflow
aborts with the wrapped critical message and the second task is still
`pending`. -/
theorem executeWorkflow_critical_abort_witness :
    executeWorkflow stubHandlers
      [⟨"data", "get_by_id", [], .pending, none, none, []⟩,
       ⟨"report", "create_summary", [("data", .str "d")], .pending, none, none, []⟩]
      none =
      ([⟨"data", "get_by_id", [], .failed, none,
          some "Missing required parameter: id", []⟩,
        ⟨"report", "create_summary", [("data", .str "d")], .pending, none, none, []⟩],
        Except.error "Critical task failed: Missing required parameter: id") := by
  have h := (executeWorkflow_critical_abort_or_report_continue stubHandlers none []
    [⟨"report", "create_summary", [("data", .str "d")], .pending, none, none, []⟩]
    [] ⟨"data", "get_by_id", [], .pending, none, none, []⟩
    "Missing required parameter: id" rfl).1 rfl
  exact h

/-! ## C7 -/

/-- C7 (counterexample): a plan containing a report task with the
unimplemented action `bogus_action` does NOT abort the call — the
workflow runs to completion, returning `.ok` with the error merely
recorded; so the unknown-action error is not surfaced (verbatim or
otherwise) to the caller for every capability category. -/
theorem executeWorkflow_unknown_report_action_no_abort :
    executeWorkflow stubHandlers
      [⟨"report", "bogus_action", [], .pending, none, none, []⟩] none =
      ([⟨"report", "bogus_action", [], .failed, none,
          some "Unknown report task: bogus_action", []⟩],
        Except.ok [errObj "Unknown report task: bogus_action"]) := rfl

/-- C7 (amended): a dependency-free task naming an action no dispatcher
implements behaves by capability category: a `data` task aborts the
workflow with `Critical task failed: Unknown data task: <action>` (the
unknown-action message wrapped, not verbatim); a `report` task records
`Unknown report task: <action>` as its error and execution continues;
an `automation` task never fails — the placeholder accepts any action
name and the workflow continues with its result. -/
theorem unknownAction_behavior_by_agent
    (H : AgentHandlers) (ctx : Option Params) (done rest : List AgentTask)
    (results : List Val) (task : AgentTask)
    (hdeps : task.dependencies = [])
    (ha1 : task.action ≠ "analyze_data") (ha2 : task.action ≠ "get_by_id")
    (ha3 : task.action ≠ "get_by_filename") (ha4 : task.action ≠ "process_data")
    (ha5 : task.action ≠ "upload_and_process") (hb1 : task.action ≠ "generate_report")
    (hb2 : task.action ≠ "create_summary") (hb3 : task.action ≠ "export_pdf")
    (hb4 : task.action ≠ "export_markdown") (hb5 : task.action ≠ "export_json")
    (hb6 : task.action ≠ "get_statistics") :
    (task.agent = "data" →
      executeWorkflowGo H ctx (task :: rest) done results =
        (done ++ {task with
            status := .failed,
            error := some ("Unknown data task: " ++ task.action)} :: rest,
          Except.error ("Critical task failed: " ++ ("Unknown data task: " ++ task.action)))) ∧
    (task.agent = "report" →
      executeWorkflowGo H ctx (task :: rest) done results =
        executeWorkflowGo H ctx rest
          (done ++ [{task with
              status := .failed,
              error := some ("Unknown report task: " ++ task.action)}])
          (results ++ [errObj ("Unknown report task: " ++ task.action)])) ∧
    (task.agent = "automation" →
      executeWorkflowGo H ctx (task :: rest) done results =
        executeWorkflowGo H ctx rest
          (done ++ [{task with
              status := .completed,
              result := some (Val.obj
                [("message", .str ("Automation task '" ++ task.action ++ "' executed (placeholder)")),
                 ("params", .obj (resolveTaskParams task results ctx))])}])
          (results ++ [Val.obj
            [("message", .str ("Automation task '" ++ task.action ++ "' executed (placeholder)")),
             ("params", .obj (resolveTaskParams task results ctx))]])) := by
  have hcheck : depCheckFold task results = (task, results) := by
    unfold depCheckFold
    rw [hdeps]
    rfl
  refine ⟨fun hag => ?_, fun hag => ?_, fun hag => ?_⟩
  · have hex : executeTask H {task with status := .running} results ctx =
        Except.error ("Unknown data task: " ++ task.action) := by
      unfold executeTask
      simp [hag, executeDataTask, ha1, ha2, ha3, ha4, ha5]
    simp only [executeWorkflowGo, hcheck]
    simp only [hex]
    simp [hag]
  · have hex : executeTask H {task with status := .running} results ctx =
        Except.error ("Unknown report task: " ++ task.action) := by
      unfold executeTask
      simp [hag, executeReportTask, hb1, hb2, hb3, hb4, hb5, hb6]
    simp only [executeWorkflowGo, hcheck]
    simp only [hex]
    simp [hag]
  · have hex : executeTask H {task with status := .running} results ctx =
        Except.ok (Val.obj
          [("message", .str ("Automation task '" ++ task.action ++ "' executed (placeholder)")),
           ("params", .obj (resolveTaskParams task results ctx))]) := by
      unfold executeTask
      simp only [executeAutomationTask]
      have hproj : ({task with status := TaskStatus.running} : AgentTask).agent =
          task.agent := rfl
      rw [hproj, hag]
      simp only [reduceIte]
      rfl
    simp only [executeWorkflowGo, hcheck]
    simp only [hex]

/-- C7 (witness): the amended theorem applied at a concrete `data`
task with the unknown action `frobnicate`. -/
theorem unknownAction_behavior_witness :
    executeWorkflow stubHandlers
      [⟨"data", "frobnicate", [], .pending, none, none, []⟩] none =
      ([⟨"data", "frobnicate", [], .failed, none,
          some "Unknown data task: frobnicate", []⟩],
        Except.error "Critical task failed: Unknown data task: frobnicate") := by
  have h := (unknownAction_behavior_by_agent stubHandlers none [] [] []
    ⟨"data", "frobnicate", [], .pending, none, none, []⟩ rfl
    (by decide) (by decide) (by decide) (by decide) (by decide) (by decide)
    (by decide) (by decide) (by decide) (by decide) (by decide)).1 rfl
  exact h

/-! ## C5 -/

theorem padTruncRow_length (hc : Nat) (cells : List Str) :
    (padTruncRow hc cells).length = hc := by
  simp only [padTruncRow, List.length_take, List.length_append, List.length_replicate]
  omega

theorem padTruncRow_short (hc : Nat) (cells : List Str) (h : cells.length ≤ hc) :
    padTruncRow hc cells = cells ++ List.replicate (hc - cells.length) [] := by
  unfold padTruncRow
  apply List.take_of_length_le
  simp only [List.length_append, List.length_replicate]
  omega

theorem padTruncRow_long (hc : Nat) (cells : List Str) (h : hc ≤ cells.length) :
    padTruncRow hc cells = cells.take hc := by
  unfold padTruncRow
  rw [Nat.sub_eq_zero_of_le h]
  simp

/-- C5: every row of a successfully parsed table has exactly
`headers.length` cells: each row comes from the quote-aware parse of
its line, padded with empty strings when short and truncated (extra
cells discarded) when long. -/
theorem parseCSV_rows_match_header_count (data : Str) (t : CSVTable)
    (h : parseCSV data = some t) :
    ∀ r ∈ t.rows, r.length = t.headers.length ∧
      ∃ cells, r = padTruncRow t.headers.length cells ∧
        (cells.length ≤ t.headers.length →
          r = cells ++ List.replicate (t.headers.length - cells.length) []) ∧
        (t.headers.length ≤ cells.length → r = cells.take t.headers.length) := by
  intro r hr
  simp only [parseCSV] at h
  split at h
  · rename_i l0 l1 rest
    injection h with h'
    subst h'
    simp only [List.mem_map] at hr
    obtain ⟨line, _, rfl⟩ := hr
    refine ⟨padTruncRow_length _ _, parseCSVLine line, rfl, ?_, ?_⟩
    · exact padTruncRow_short _ _
    · exact padTruncRow_long _ _
  · exact absurd h (by simp)

/-- C5 (witness): the theorem applied at `a,b,c\nx\np,q,r,s`, whose
first data row is short (padded to three cells). -/
theorem parseCSV_rows_match_header_count_witness :
    ([['x'], [], []] : List Str).length = 3 :=
  (parseCSV_rows_match_header_count "a,b,c\nx\np,q,r,s".data
    ⟨[['a'], ['b'], ['c']], [[['x'], [], []], [['p'], ['q'], ['r']]]⟩ rfl
    [['x'], [], []] (by simp)).1

/-! ## C10 -/

theorem takeWhile_append_not (p : Char → Bool) (xs : Str) (c : Char) (ys : Str)
    (hxs : ∀ x ∈ xs, p x = true) (hc : p c = false) :
    (xs ++ c :: ys).takeWhile p = xs := by
  induction xs with
  | nil => simp [List.takeWhile_cons, hc]
  | cons x xs ih =>
    have hx := hxs x (by simp)
    simp [List.takeWhile_cons, hx, ih (fun y hy => hxs y (by simp [hy]))]

theorem isPrefixOf_self_append (l r : Str) : l.isPrefixOf (l ++ r) = true := by
  induction l with
  | nil => simp [List.isPrefixOf]
  | cons c l ih => simp [List.isPrefixOf, ih]

/-- One unfolding step of the scan when the pattern does not match at
the current position. -/
theorem findTaskRef_cons_none (c : Char) (rest : Str)
    (h : tryTaskRef (c :: rest) = none) :
    findTaskRef (c :: rest) = findTaskRef rest := by
  rw [show findTaskRef (c :: rest) =
    (match tryTaskRef (c :: rest) with
     | some r => some r
     | none => findTaskRef rest) from rfl, h]

/-- One unfolding step of the scan when the pattern matches here. -/
theorem findTaskRef_cons_some (c : Char) (rest : Str) (r : Nat × String)
    (h : tryTaskRef (c :: rest) = some r) :
    findTaskRef (c :: rest) = some r := by
  rw [show findTaskRef (c :: rest) =
    (match tryTaskRef (c :: rest) with
     | some r => some r
     | none => findTaskRef rest) from rfl, h]

/-- If the whole five-character needle `task.` fits as a prefix of
`xs ++ '{' :: ys`, it already fits inside `xs` (no character of the
needle is `{`). -/
theorem taskPrefix_of_append_brace (xs ys : Str)
    (h : "task.".data.isPrefixOf (xs ++ '{' :: ys) = true) :
    "task.".data.isPrefixOf xs = true := by
  match xs with
  | [] => simp [List.isPrefixOf] at h
  | [c1] => simp [List.isPrefixOf] at h
  | [c1, c2] => simp [List.isPrefixOf] at h
  | [c1, c2, c3] => simp [List.isPrefixOf] at h
  | [c1, c2, c3, c4] => simp [List.isPrefixOf] at h
  | c1 :: c2 :: c3 :: c4 :: c5 :: xs' =>
    simp [List.isPrefixOf] at h ⊢
    exact h

/-- Scanning for the first task placeholder skips any leading text
that contains no `task.` occurrence (the text after it starting with
an opening brace, so no occurrence can straddle the boundary). -/
theorem findTaskRef_skip_pre (pre : Str) (rest : Str)
    (hpre : containsSub "task.".data pre = false)
    (hbr : rest.head? = some '{') :
    findTaskRef (pre ++ rest) = findTaskRef rest := by
  induction pre with
  | nil => simp
  | cons c pre' ih =>
    simp only [containsSub, Bool.or_eq_false_iff] at hpre
    obtain ⟨hnp, hpre'⟩ := hpre
    obtain ⟨ys, rfl⟩ : ∃ ys, rest = '{' :: ys := by
      cases rest with
      | nil => simp at hbr
      | cons r0 ys =>
        simp only [List.head?_cons, Option.some.injEq] at hbr
        exact ⟨ys, by rw [hbr]⟩
    have hnotpref : "task.".data.isPrefixOf (c :: (pre' ++ '{' :: ys)) = false := by
      cases hcase : "task.".data.isPrefixOf (c :: (pre' ++ '{' :: ys)) with
      | false => rfl
      | true =>
        have : "task.".data.isPrefixOf ((c :: pre') ++ '{' :: ys) = true := hcase
        exact absurd (taskPrefix_of_append_brace _ _ this) (by simp [hnp])
    have htry : tryTaskRef (c :: (pre' ++ '{' :: ys)) = none := by
      unfold tryTaskRef
      simp [hnotpref]
    calc findTaskRef ((c :: pre') ++ '{' :: ys)
        = findTaskRef (c :: (pre' ++ '{' :: ys)) := rfl
      _ = findTaskRef (pre' ++ '{' :: ys) := findTaskRef_cons_none _ _ htry
      _ = findTaskRef ('{' :: ys) := ih hpre'

/-- Reading the placeholder core at its own position yields exactly
the referenced task index and field name. -/
theorem tryTaskRef_at_ref (ds f post : Str)
    (hds : ds ≠ []) (hdsall : ∀ c ∈ ds, c.isDigit = true)
    (hf : f ≠ []) (hfall : ∀ c ∈ f, wordChar c = true) :
    tryTaskRef ('t' :: 'a' :: 's' :: 'k' :: '.' :: (ds ++ '.' :: (f ++ '}' :: post))) =
      some (natOfDigits ds, String.mk f) := by
  have h0 : "task.".data.isPrefixOf
      ('t' :: 'a' :: 's' :: 'k' :: '.' :: (ds ++ '.' :: (f ++ '}' :: post))) = true := by
    simp [List.isPrefixOf]
  have h1 : ('t' :: 'a' :: 's' :: 'k' :: '.' :: (ds ++ '.' :: (f ++ '}' :: post))).drop 5 =
      ds ++ '.' :: (f ++ '}' :: post) := rfl
  have h2 : List.takeWhile Char.isDigit (ds ++ '.' :: (f ++ '}' :: post)) = ds :=
    takeWhile_append_not Char.isDigit ds '.' (f ++ '}' :: post) hdsall (by decide)
  have h3 : ds.isEmpty = false := by
    cases ds with
    | nil => exact absurd rfl hds
    | cons d ds' => rfl
  have h4 : List.drop ds.length (ds ++ '.' :: (f ++ '}' :: post)) =
      '.' :: (f ++ '}' :: post) := List.drop_left ds _
  have h5 : List.takeWhile wordChar (f ++ '}' :: post) = f :=
    takeWhile_append_not wordChar f '}' post hfall (by decide)
  have h6 : f.isEmpty = false := by
    cases f with
    | nil => exact absurd rfl hf
    | cons x f' => rfl
  simp only [tryTaskRef, h0, if_true, h1, h2, h3, h4, h5, h6, Bool.false_eq_true,
    if_false]

/-- C10: a string parameter value of the form
`pre ++ "{task.<ds>.<f>}" ++ post` — with no `task.` occurrence before
the placeholder, `ds` a digit string and `f` a field name — is
replaced by `enrichParams` with the ENTIRE referenced field value when
task `ds`'s stored result defines field `f`: the surrounding text
`pre`/`post` is discarded rather than substituted in place, and only
this first placeholder occurrence matters (`post` may contain further
placeholders).  The `{{task.N.F}}` and `${task.N.F}` spellings are the
instances `pre ++ "{"` / `pre ++ "$"` of this statement. -/
theorem enrichParams_replaces_entire_value
    (results : List Val) (k : String) (pre ds f post : Str) (r v : Val)
    (hpre : containsSub "task.".data pre = false)
    (hds : ds ≠ []) (hdsall : ∀ c ∈ ds, c.isDigit = true)
    (hf : f ≠ []) (hfall : ∀ c ∈ f, wordChar c = true)
    (hres : results.get? (natOfDigits ds) = some r)
    (hfield : getField r (String.mk f) = some v)
    (params : Params)
    (hmem : (k, Val.str (String.mk
      (pre ++ '{' :: ('t' :: 'a' :: 's' :: 'k' :: '.' ::
        (ds ++ '.' :: (f ++ '}' :: post)))))) ∈ params) :
    (k, v) ∈ enrichParams params results := by
  have htru : truthy r = true := by
    cases r with
    | obj l => rfl
    | str s => simp [getField] at hfield
    | num n => simp [getField] at hfield
    | arr l => simp [getField] at hfield
  have hfind : findTaskRef
      (pre ++ '{' :: ('t' :: 'a' :: 's' :: 'k' :: '.' ::
        (ds ++ '.' :: (f ++ '}' :: post)))) = some (natOfDigits ds, String.mk f) := by
    rw [findTaskRef_skip_pre pre
      ('{' :: ('t' :: 'a' :: 's' :: 'k' :: '.' :: (ds ++ '.' :: (f ++ '}' :: post))))
      hpre rfl]
    have h0 : tryTaskRef ('{' :: 't' :: 'a' :: 's' :: 'k' :: '.' ::
        (ds ++ '.' :: (f ++ '}' :: post))) = none := by
      unfold tryTaskRef
      simp [List.isPrefixOf]
    rw [findTaskRef_cons_none _ _ h0]
    exact findTaskRef_cons_some _ _ _ (tryTaskRef_at_ref ds f post hds hdsall hf hfall)
  unfold enrichParams
  refine List.mem_map.mpr ⟨_, hmem, ?_⟩
  simp only [hfind, hres, htru, hfield]
  simp

/-- C10 (witness): `use {task.0.id} now` with task 0's result
`{id: "R1"}` resolves the whole parameter value to `R1`. -/
theorem enrichParams_replaces_entire_value_witness :
    ("recordId", Val.str "R1") ∈
      enrichParams [("recordId", Val.str "use {task.0.id} now")]
        [Val.obj [("id", Val.str "R1")]] :=
  enrichParams_replaces_entire_value [Val.obj [("id", Val.str "R1")]] "recordId"
    "use ".data "0".data "id".data " now".data (Val.obj [("id", Val.str "R1")])
    (Val.str "R1") (by decide) (by decide) (by decide) (by decide) (by decide)
    rfl rfl [("recordId", Val.str "use {task.0.id} now")] (by simp)

/-! ## C9: a small theory of `collapseWS` and `trimChars` -/

theorem length_dropWhile_ws_le (cs : Str) :
    (cs.dropWhile wsChar).length ≤ cs.length := by
  induction cs with
  | nil => simp
  | cons c rest ih =>
    by_cases hw : wsChar c <;> simp [List.dropWhile_cons, hw] <;> omega

theorem dropWhile_ws_eq_self (cs : Str)
    (h : ∀ d, cs.head? = some d → wsChar d = false) :
    cs.dropWhile wsChar = cs := by
  cases cs with
  | nil => rfl
  | cons c rest => simp [List.dropWhile_cons, h c rfl]

theorem dropWhile_ws_len_eq (cs : Str)
    (h : (cs.dropWhile wsChar).length = cs.length) : cs.dropWhile wsChar = cs := by
  cases cs with
  | nil => rfl
  | cons c rest =>
    by_cases hw : wsChar c
    · exfalso
      simp only [List.dropWhile_cons, hw, if_true] at h
      have := length_dropWhile_ws_le rest
      simp only [List.length_cons] at h
      omega
    · simp [List.dropWhile_cons, hw]

theorem head_dropWhile_ws (cs : Str) (d : Char)
    (h : (cs.dropWhile wsChar).head? = some d) : wsChar d = false := by
  induction cs with
  | nil => simp at h
  | cons c rest ih =>
    by_cases hw : wsChar c
    · rw [List.dropWhile_cons, if_pos hw] at h
      exact ih h
    · rw [List.dropWhile_cons, if_neg hw] at h
      injection h with h'
      rw [← h']
      simp [hw]

theorem getLast_dropWhile_ws (cs : Str) (h : cs.dropWhile wsChar ≠ []) :
    (cs.dropWhile wsChar).getLast? = cs.getLast? := by
  induction cs with
  | nil => simp at h
  | cons c rest ih =>
    by_cases hw : wsChar c
    · rw [List.dropWhile_cons, if_pos hw] at h ⊢
      have hrest : rest ≠ [] := by
        intro he
        rw [he] at h
        exact h rfl
      obtain ⟨y, ys, rfl⟩ := List.exists_cons_of_ne_nil hrest
      rw [List.getLast?_cons_cons, ih h]
    · rw [List.dropWhile_cons, if_neg hw]

theorem trim_eq_self_of_ends (cs : Str)
    (hh : ∀ d, cs.head? = some d → wsChar d = false)
    (hl : ∀ d, cs.getLast? = some d → wsChar d = false) :
    trimChars cs = cs := by
  unfold trimChars
  rw [dropWhile_ws_eq_self cs hh]
  rw [dropWhile_ws_eq_self cs.reverse
    (fun d hd => hl d (by rwa [List.getLast?_eq_head?_reverse]))]
  exact List.reverse_reverse cs

theorem trim_eq_self_ends (cs : Str) (h : trimChars cs = cs) :
    (∀ d, cs.head? = some d → wsChar d = false) ∧
    (∀ d, cs.getLast? = some d → wsChar d = false) := by
  unfold trimChars at h
  have hlen : (((cs.dropWhile wsChar).reverse.dropWhile wsChar).reverse).length =
      cs.length := by rw [h]
  have l1 := length_dropWhile_ws_le cs
  have l2 := length_dropWhile_ws_le (cs.dropWhile wsChar).reverse
  rw [List.length_reverse] at hlen
  rw [List.length_reverse] at l2
  have hY : cs.dropWhile wsChar = cs := dropWhile_ws_len_eq cs (by omega)
  rw [hY] at h hlen l2
  have hZ : cs.reverse.dropWhile wsChar = cs.reverse := by
    apply dropWhile_ws_len_eq
    rw [List.length_reverse]
    omega
  constructor
  · intro d hd
    cases cs with
    | nil => simp at hd
    | cons c rest =>
      injection hd with hd'
      rw [← hd']
      by_cases hw : wsChar c
      · rw [List.dropWhile_cons, if_pos hw] at hY
        have hle := length_dropWhile_ws_le rest
        have hbad : (c :: rest).length ≤ rest.length := by
          rw [← hY]
          exact hle
        simp only [List.length_cons] at hbad
        omega
      · exact Bool.not_eq_true _ ▸ eq_false_of_ne_true hw
  · intro d hd
    have hd' : cs.reverse.head? = some d := by
      rw [← List.getLast?_eq_head?_reverse]
      exact hd
    cases hrev : cs.reverse with
    | nil => rw [hrev] at hd'; simp at hd'
    | cons c rest =>
      rw [hrev] at hd' hZ
      injection hd' with hd''
      rw [← hd'']
      by_cases hw : wsChar c
      · rw [List.dropWhile_cons, if_pos hw] at hZ
        have hle := length_dropWhile_ws_le rest
        have hbad : (c :: rest).length ≤ rest.length := by
          rw [← hZ]
          exact hle
        simp only [List.length_cons] at hbad
        omega
      · exact Bool.not_eq_true _ ▸ eq_false_of_ne_true hw

theorem trim_head_not_ws (cs : Str) (d : Char)
    (h : (trimChars cs).head? = some d) : wsChar d = false := by
  unfold trimChars at h
  rw [List.head?_reverse] at h
  have hne : (cs.dropWhile wsChar).reverse.dropWhile wsChar ≠ [] := by
    intro he
    rw [he] at h
    simp at h
  rw [getLast_dropWhile_ws _ hne, List.getLast?_reverse] at h
  exact head_dropWhile_ws cs d h

theorem trim_getLast_not_ws (cs : Str) (d : Char)
    (h : (trimChars cs).getLast? = some d) : wsChar d = false := by
  unfold trimChars at h
  rw [List.getLast?_reverse] at h
  exact head_dropWhile_ws _ d h

theorem trim_idem (cs : Str) : trimChars (trimChars cs) = trimChars cs :=
  trim_eq_self_of_ends _ (trim_head_not_ws cs) (trim_getLast_not_ws cs)

/-- Output shape of `collapseWS`: every whitespace character is a
single space followed by a non-whitespace character (or the end). -/
def headNonWsB : Str → Bool
  | [] => true
  | d :: _ => !wsChar d

def wellCollapsed : Str → Bool
  | [] => true
  | c :: rest => (!wsChar c || ((c == ' ') && headNonWsB rest)) && wellCollapsed rest

theorem collapseAux_cons (b : Bool) (c : Char) (rest : Str) :
    collapseAux b (c :: rest) =
      if wsChar c then
        (if b then collapseAux true rest else ' ' :: collapseAux true rest)
      else c :: collapseAux false rest := rfl

theorem headNonWsB_collapseAux_true (cs : Str) :
    headNonWsB (collapseAux true cs) = true := by
  induction cs with
  | nil => rfl
  | cons c rest ih =>
    rw [collapseAux_cons]
    by_cases hw : wsChar c
    · rw [if_pos hw, if_pos rfl]
      exact ih
    · rw [if_neg (by simp [hw])]
      simp [headNonWsB, hw]

theorem wellCollapsed_collapseAux (cs : Str) :
    ∀ b, wellCollapsed (collapseAux b cs) = true := by
  induction cs with
  | nil => intro b; rfl
  | cons c rest ih =>
    intro b
    by_cases hw : wsChar c
    · cases b with
      | true => simp only [collapseAux, hw, if_true]; exact ih true
      | false =>
        simp only [collapseAux, hw, if_true, Bool.false_eq_true, if_false]
        simp only [wellCollapsed]
        rw [headNonWsB_collapseAux_true, ih true]
        decide
    · simp only [collapseAux, hw, Bool.false_eq_true, if_false]
      simp only [wellCollapsed]
      rw [ih false]
      simp [hw]

theorem collapseAux_eq_self_of_wellCollapsed (cs : Str)
    (h : wellCollapsed cs = true) :
    collapseAux false cs = cs ∧
      (headNonWsB cs = true → collapseAux true cs = cs) := by
  induction cs with
  | nil => exact ⟨rfl, fun _ => rfl⟩
  | cons c rest ih =>
    simp only [wellCollapsed, Bool.and_eq_true] at h
    obtain ⟨h1, h2⟩ := h
    obtain ⟨ihf, iht⟩ := ih h2
    by_cases hw : wsChar c
    · simp only [hw, Bool.not_true, Bool.false_or, Bool.and_eq_true, beq_iff_eq] at h1
      obtain ⟨hsp, hhd⟩ := h1
      constructor
      · rw [collapseAux_cons, if_pos hw, if_neg (by simp), iht hhd, hsp]
      · intro hcontra
        simp [headNonWsB, hw] at hcontra
    · constructor
      · simp only [collapseAux, hw, Bool.false_eq_true, if_false]
        rw [ihf]
      · intro _
        simp only [collapseAux, hw, Bool.false_eq_true, if_false]
        rw [ihf]

theorem collapseAux_spaceless (cs : Str) (h : ∀ x ∈ cs, wsChar x = false) :
    ∀ b, collapseAux b cs = cs := by
  induction cs with
  | nil => intro b; rfl
  | cons c rest ih =>
    intro b
    have hc := h c (by simp)
    simp only [collapseAux, hc, Bool.false_eq_true, if_false]
    rw [ih (fun x hx => h x (by simp [hx])) false]

theorem collapse_preserves_some_ws (cs : Str) (x : Char) (hx : x ∈ cs)
    (hw : wsChar x = true) : ∃ y ∈ collapseAux false cs, wsChar y = true := by
  induction cs with
  | nil => simp at hx
  | cons c rest ih =>
    by_cases hc : wsChar c
    · exact ⟨' ', by simp [collapseAux, hc], by decide⟩
    · rcases List.mem_cons.mp hx with rfl | hx'
      · exact absurd hw (by simp [hc])
      · obtain ⟨y, hy, hyw⟩ := ih hx'
        exact ⟨y, by simp [collapseAux, hc, hy], hyw⟩

theorem collapse_head (c : Char) (rest : Str) (hc : wsChar c = false) :
    collapseAux false (c :: rest) = c :: collapseAux false rest := by
  simp [collapseAux, hc]

theorem collapse_getLast (cs : Str) (d : Char) (hd : cs.getLast? = some d)
    (hw : wsChar d = false) :
    ∀ b, (collapseAux b cs).getLast? = some d := by
  induction cs with
  | nil => simp at hd
  | cons c rest ih =>
    intro b
    cases rest with
    | nil =>
      simp only [List.getLast?_singleton, Option.some.injEq] at hd
      subst hd
      by_cases hc : wsChar c
      · rw [hc] at hw
        exact absurd hw (by simp)
      · simp [collapseAux, hc]
    | cons y ys =>
      rw [List.getLast?_cons_cons] at hd
      have htail : ∀ b', (collapseAux b' (y :: ys)).getLast? = some d := ih hd
      have hne : ∀ b', collapseAux b' (y :: ys) ≠ [] := by
        intro b' he
        have := htail b'
        rw [he] at this
        simp at this
      by_cases hc : wsChar c
      · cases b with
        | true =>
          rw [collapseAux_cons, if_pos hc, if_pos rfl]
          exact htail true
        | false =>
          rw [collapseAux_cons, if_pos hc, if_neg (by simp)]
          obtain ⟨z, zs, hz⟩ := List.exists_cons_of_ne_nil (hne true)
          rw [hz, List.getLast?_cons_cons, ← hz]
          exact htail true
      · rw [collapseAux_cons, if_neg (by simp [hc])]
        obtain ⟨z, zs, hz⟩ := List.exists_cons_of_ne_nil (hne false)
        rw [hz, List.getLast?_cons_cons, ← hz]
        exact htail false

theorem ws_toLower (x : Char) (hx : wsChar x = true) : Char.toLower x = x := by
  have hd : ((x = ' ' ∨ x = '\t') ∨ x = '\x0d') ∨ x = '\n' := by
    simpa [wsChar, Char.isWhitespace] using hx
  rcases hd with ((rfl | rfl) | rfl) | rfl <;> decide

theorem sentinel_mem (s : Str) (h : isNullSentinel s = true) :
    lowerChars s ∈ nullSentinels := by
  unfold isNullSentinel at h
  exact List.elem_iff.mp h

theorem sentinel_spaceless (s : Str) (h : isNullSentinel s = true) :
    ∀ x ∈ s, wsChar x = false := by
  intro x hx
  by_cases hw : wsChar x = true
  · exfalso
    have hmem := sentinel_mem s h
    have hx' : Char.toLower x ∈ lowerChars s := List.mem_map_of_mem _ hx
    rw [ws_toLower x hw] at hx'
    have hall : ∀ t ∈ nullSentinels, ∀ y ∈ t, wsChar y = false := by decide
    have := hall _ hmem x hx'
    rw [this] at hw
    exact absurd hw (by decide)
  · simpa using hw

/-- Per-cell idempotence of `clean` on trimmed cells: a second
application of the null-sentinel replacement and whitespace collapsing
changes nothing. -/
theorem cellClean_idem (c : Str) (hc : trimChars c = c) :
    cellClean (cellClean c) = cellClean c := by
  by_cases hs : isNullSentinel c = true
  · have h1 : cellClean c = "Unknown".data := by simp [cellClean, hs]
    rw [h1]
    decide
  · have hs' : isNullSentinel c = false := by simpa using hs
    have hcne : c ≠ [] := by
      intro he
      rw [he] at hs'
      revert hs'
      decide
    obtain ⟨hh, hl⟩ := trim_eq_self_ends c hc
    have hclean : cellClean c = trimChars (collapseWS c) := by
      simp [cellClean, hs']
    obtain ⟨d, hdlast⟩ : ∃ d, c.getLast? = some d := by
      cases hg : c.getLast? with
      | some d => exact ⟨d, rfl⟩
      | none => exact absurd (List.getLast?_eq_none_iff.mp hg) hcne
    have hdws := hl d hdlast
    have hclast : (collapseWS c).getLast? = some d :=
      collapse_getLast c d hdlast hdws false
    obtain ⟨e, hehead, hews⟩ :
        ∃ e, (collapseWS c).head? = some e ∧ wsChar e = false := by
      obtain ⟨c0, crest, hcons⟩ := List.exists_cons_of_ne_nil hcne
      have h0 : wsChar c0 = false := hh c0 (by rw [hcons]; rfl)
      refine ⟨c0, ?_, h0⟩
      rw [show collapseWS c = collapseAux false c from rfl, hcons,
        collapse_head c0 crest h0]
      rfl
    have htrimfix : trimChars (collapseWS c) = collapseWS c :=
      trim_eq_self_of_ends _
        (fun d' hd' => by
          rw [hehead] at hd'
          injection hd' with h''
          rw [← h'']
          exact hews)
        (fun d' hd' => by
          rw [hclast] at hd'
          injection hd' with h''
          rw [← h'']
          exact hdws)
    have hc' : cellClean c = collapseWS c := hclean.trans htrimfix
    rw [hc']
    by_cases hs2 : isNullSentinel (collapseWS c) = true
    · exfalso
      have hsp := sentinel_spaceless _ hs2
      have hcsp : ∀ x ∈ c, wsChar x = false := by
        intro x hx
        by_cases hxw : wsChar x = true
        · obtain ⟨y, hy, hyw⟩ := collapse_preserves_some_ws c x hx hxw
          rw [hsp y hy] at hyw
          exact absurd hyw (by decide)
        · simpa using hxw
      have hfixc : collapseWS c = c := collapseAux_spaceless c hcsp false
      rw [hfixc] at hs2
      rw [hs2] at hs'
      exact absurd hs' (by decide)
    · have hs2' : isNullSentinel (collapseWS c) = false := by simpa using hs2
      have hstep : cellClean (collapseWS c) = trimChars (collapseWS (collapseWS c)) := by
        simp [cellClean, hs2']
      rw [hstep]
      have hwc : wellCollapsed (collapseWS c) = true := wellCollapsed_collapseAux c false
      have hfix2 : collapseWS (collapseWS c) = collapseWS c :=
        (collapseAux_eq_self_of_wellCollapsed _ hwc).1
      rw [hfix2, htrimfix]

/-! ## C9 -/

/-- C9 (counterexample): clean is NOT idempotent on every table — a
cell `null ` (trailing space) is not a null sentinel on the first
pass, is merely trimmed to `null`, and only the second pass replaces
it with `Unknown`. -/
theorem clean_not_idempotent :
    clean (clean ⟨[['a']], [[['n', 'u', 'l', 'l', ' ']]]⟩) ≠
      clean ⟨[['a']], [[['n', 'u', 'l', 'l', ' ']]]⟩ := by decide

/-- C9 (amended): the clean pass is idempotent on every table whose
cells carry no leading or trailing whitespace — in particular on every
table the CSV parser produces, since `parseCSVLine` trims each cell:
`clean (clean t) = clean t`. -/
theorem clean_idem_of_trimmed (t : CSVTable)
    (h : ∀ row ∈ t.rows, ∀ c ∈ row, trimChars c = c) :
    clean (clean t) = clean t := by
  unfold clean
  simp only [List.map_map, CSVTable.mk.injEq, true_and]
  apply List.map_congr_left
  intro row hrow
  simp only [Function.comp]
  rw [List.map_map]
  apply List.map_congr_left
  intro c hcmem
  exact cellClean_idem c (h row hrow c hcmem)

/-- C9 (witness): the amended theorem applied at a concrete table with
trimmed cells (an internal-whitespace cell and a `NULL` sentinel). -/
theorem clean_idem_of_trimmed_witness :
    clean (clean ⟨[['a'], ['b']],
      [[['x', ' ', ' ', 'y'], ['N', 'U', 'L', 'L']]]⟩) =
      clean ⟨[['a'], ['b']], [[['x', ' ', ' ', 'y'], ['N', 'U', 'L', 'L']]]⟩ :=
  clean_idem_of_trimmed ⟨[['a'], ['b']],
    [[['x', ' ', ' ', 'y'], ['N', 'U', 'L', 'L']]]⟩ (by decide)

/-! ## C4: round-trip of `parseCSV` after `reconstructCSV` -/

/-- No literal backslash-n pair anywhere (so `normalizeNewlines` is
the identity). -/
def noBSn : Str → Bool
  | [] => true
  | [_] => true
  | c :: d :: rest => !(c == '\\' && d == 'n') && noBSn (d :: rest)

theorem normalize_eq_self (cs : Str) (h : noBSn cs = true) :
    normalizeNewlines cs = cs := by
  induction cs with
  | nil => rfl
  | cons c rest ih =>
    cases rest with
    | nil => rfl
    | cons d rest' =>
      rw [show noBSn (c :: d :: rest') =
        (!(c == '\\' && d == 'n') && noBSn (d :: rest')) from rfl,
        Bool.and_eq_true] at h
      obtain ⟨h1, h2⟩ := h
      have hnn : ¬(c = '\\' ∧ d = 'n') := by
        intro hand
        rw [hand.1, hand.2] at h1
        exact absurd h1 (by decide)
      rw [show normalizeNewlines (c :: d :: rest') =
        (if c = '\\' ∧ d = 'n' then '\n' :: normalizeNewlines rest'
         else c :: normalizeNewlines (d :: rest')) from rfl,
        if_neg hnn, ih h2]

theorem noBSn_cons_not_bs (c : Char) (b : Str) (hc : c ≠ '\\') :
    noBSn (c :: b) = noBSn b := by
  cases b with
  | nil => rfl
  | cons y b' =>
    have h1 : (c == '\\') = false := by simp [hc]
    rw [show noBSn (c :: y :: b') = (!(c == '\\' && y == 'n') && noBSn (y :: b')) from rfl,
      h1]
    simp

theorem noBSn_tail (x : Char) (a : Str) (h : noBSn (x :: a) = true) :
    noBSn a = true := by
  cases a with
  | nil => rfl
  | cons y a' =>
    rw [show noBSn (x :: y :: a') = (!(x == '\\' && y == 'n') && noBSn (y :: a')) from rfl,
      Bool.and_eq_true] at h
    exact h.2

theorem noBSn_append_sep (a b : Str) (c : Char) (hc1 : c ≠ '\\') (hc2 : c ≠ 'n')
    (ha : noBSn a = true) (hb : noBSn b = true) : noBSn (a ++ c :: b) = true := by
  induction a with
  | nil =>
    rw [List.nil_append, noBSn_cons_not_bs c b hc1]
    exact hb
  | cons x a' ih =>
    cases a' with
    | nil =>
      have hcn : (c == 'n') = false := by simp [hc2]
      rw [List.cons_append, List.nil_append,
        show noBSn (x :: c :: b) = (!(x == '\\' && c == 'n') && noBSn (c :: b)) from rfl,
        hcn, noBSn_cons_not_bs c b hc1, hb]
      simp
    | cons y a'' =>
      rw [show noBSn (x :: y :: a'') = (!(x == '\\' && y == 'n') && noBSn (y :: a'')) from rfl,
        Bool.and_eq_true] at ha
      obtain ⟨ha1, ha2⟩ := ha
      have hrec := ih ha2
      rw [List.cons_append,
        show noBSn (x :: ((y :: a'') ++ c :: b)) =
          (!(x == '\\' && y == 'n') && noBSn ((y :: a'') ++ c :: b)) from rfl,
        Bool.and_eq_true]
      exact ⟨ha1, hrec⟩

theorem noBSn_joinSep (c : Char) (hc1 : c ≠ '\\') (hc2 : c ≠ 'n') (cells : List Str)
    (h : ∀ x ∈ cells, noBSn x = true) : noBSn (joinSep c cells) = true := by
  induction cells with
  | nil => rfl
  | cons x cells' ih =>
    cases cells' with
    | nil => exact h x (by simp)
    | cons y rest =>
      rw [show joinSep c (x :: y :: rest) = x ++ c :: joinSep c (y :: rest) from rfl]
      exact noBSn_append_sep x (joinSep c (y :: rest)) c hc1 hc2 (h x (by simp))
        (ih (fun z hz => h z (by simp [hz])))

theorem splitNL_no_newline (l : Str) (h : ∀ x ∈ l, x ≠ '\n') : splitNL l = [l] := by
  induction l with
  | nil => rfl
  | cons c l' ih =>
    rw [show splitNL (c :: l') =
      (if c = '\n' then [] :: splitNL l'
       else match splitNL l' with
            | [] => [[c]]
            | l :: ls => (c :: l) :: ls) from rfl,
      if_neg (h c (by simp)), ih (fun x hx => h x (by simp [hx]))]

theorem splitNL_append_line (l rest : Str) (h : ∀ x ∈ l, x ≠ '\n') :
    splitNL (l ++ '\n' :: rest) = l :: splitNL rest := by
  induction l with
  | nil =>
    rw [List.nil_append]
    rw [show splitNL ('\n' :: rest) =
      (if '\n' = '\n' then [] :: splitNL rest
       else match splitNL rest with
            | [] => [['\n']]
            | l :: ls => ('\n' :: l) :: ls) from rfl, if_pos rfl]
  | cons c l' ih =>
    rw [List.cons_append]
    rw [show splitNL (c :: (l' ++ '\n' :: rest)) =
      (if c = '\n' then [] :: splitNL (l' ++ '\n' :: rest)
       else match splitNL (l' ++ '\n' :: rest) with
            | [] => [[c]]
            | l :: ls => (c :: l) :: ls) from rfl,
      if_neg (h c (by simp)), ih (fun x hx => h x (by simp [hx]))]

theorem splitNL_joinSep (lines : List Str) (hne : lines ≠ [])
    (h : ∀ l ∈ lines, ∀ x ∈ l, x ≠ '\n') :
    splitNL (joinSep '\n' lines) = lines := by
  induction lines with
  | nil => exact absurd rfl hne
  | cons x lines' ih =>
    cases lines' with
    | nil => exact splitNL_no_newline x (h x (by simp))
    | cons y rest =>
      rw [show joinSep '\n' (x :: y :: rest) = x ++ '\n' :: joinSep '\n' (y :: rest) from rfl,
        splitNL_append_line x _ (h x (by simp)),
        ih (by simp) (fun l hl => h l (by simp [hl]))]

theorem mem_joinSep (c : Char) (cells : List Str) (x : Char)
    (hx : x ∈ joinSep c cells) : x = c ∨ ∃ cell ∈ cells, x ∈ cell := by
  induction cells with
  | nil => simp [joinSep] at hx
  | cons y cells' ih =>
    cases cells' with
    | nil => exact Or.inr ⟨y, by simp, hx⟩
    | cons z rest =>
      rw [show joinSep c (y :: z :: rest) = y ++ c :: joinSep c (z :: rest) from rfl] at hx
      rcases List.mem_append.mp hx with hy | hcr
      · exact Or.inr ⟨y, by simp, hy⟩
      · rcases List.mem_cons.mp hcr with rfl | hrest
        · exact Or.inl rfl
        · rcases ih hrest with hc | ⟨cell, hcell, hxc⟩
          · exact Or.inl hc
          · exact Or.inr ⟨cell, by simp [hcell], hxc⟩

theorem parseCSVLineAux_comma (cur rest : Str) :
    parseCSVLineAux false cur (',' :: rest) =
      trimChars cur :: parseCSVLineAux false [] rest := rfl

theorem parseCSVLineAux_other (cur : Str) (c : Char) (rest : Str)
    (h1 : c ≠ '"') (h2 : c ≠ ',') :
    parseCSVLineAux false cur (c :: rest) = parseCSVLineAux false (cur ++ [c]) rest := by
  rw [parseCSVLineAux.eq_def]
  split
  all_goals simp_all

theorem parseCSVLineAux_clean_end (cell : Str)
    (h : ∀ x ∈ cell, x ≠ '"' ∧ x ≠ ',') :
    ∀ acc, parseCSVLineAux false acc cell = [trimChars (acc ++ cell)] := by
  induction cell with
  | nil =>
    intro acc
    rw [List.append_nil]
    rfl
  | cons c cell' ih =>
    intro acc
    rw [parseCSVLineAux_other acc c cell' (h c (by simp)).1 (h c (by simp)).2,
      ih (fun x hx => h x (by simp [hx])) (acc ++ [c])]
    simp

theorem parseCSVLineAux_clean_sep (cell rest : Str)
    (h : ∀ x ∈ cell, x ≠ '"' ∧ x ≠ ',') :
    ∀ acc, parseCSVLineAux false acc (cell ++ ',' :: rest) =
      trimChars (acc ++ cell) :: parseCSVLineAux false [] rest := by
  induction cell with
  | nil =>
    intro acc
    rw [List.nil_append, parseCSVLineAux_comma, List.append_nil]
  | cons c cell' ih =>
    intro acc
    rw [List.cons_append,
      parseCSVLineAux_other acc c _ (h c (by simp)).1 (h c (by simp)).2,
      ih (fun x hx => h x (by simp [hx])) (acc ++ [c])]
    simp

theorem parseCSVLine_joinSep (cells : List Str) (hne : cells ≠ [])
    (h : ∀ cell ∈ cells, ∀ x ∈ cell, x ≠ '"' ∧ x ≠ ',') :
    parseCSVLine (joinSep ',' cells) = cells.map trimChars := by
  induction cells with
  | nil => exact absurd rfl hne
  | cons x cells' ih =>
    cases cells' with
    | nil =>
      show parseCSVLineAux false [] x = [trimChars x]
      rw [parseCSVLineAux_clean_end x (h x (by simp)) []]
      rw [List.nil_append]
    | cons y rest =>
      show parseCSVLineAux false [] (joinSep ',' (x :: y :: rest)) = _
      rw [show joinSep ',' (x :: y :: rest) = x ++ ',' :: joinSep ',' (y :: rest) from rfl,
        parseCSVLineAux_clean_sep x _ (h x (by simp)) [], List.nil_append]
      have := ih (by simp) (fun cell hc => h cell (by simp [hc]))
      rw [show parseCSVLineAux false [] (joinSep ',' (y :: rest)) =
        parseCSVLine (joinSep ',' (y :: rest)) from rfl, this, List.map_cons]
      rfl

theorem joinSep_head_not_ws (sep : Char) (hsep : wsChar sep = false)
    (cells : List Str) (h : ∀ cell ∈ cells, trimChars cell = cell) :
    ∀ d, (joinSep sep cells).head? = some d → wsChar d = false := by
  induction cells with
  | nil => intro d hd; simp [joinSep] at hd
  | cons x cells' ih =>
    cases cells' with
    | nil =>
      intro d hd
      exact (trim_eq_self_ends x (h x (by simp))).1 d hd
    | cons y rest =>
      intro d hd
      rw [show joinSep sep (x :: y :: rest) = x ++ sep :: joinSep sep (y :: rest) from rfl] at hd
      cases x with
      | nil =>
        rw [List.nil_append, List.head?_cons] at hd
        injection hd with hd'
        rw [← hd']
        exact hsep
      | cons x0 x' =>
        rw [List.cons_append, List.head?_cons] at hd
        injection hd with hd'
        exact (trim_eq_self_ends _ (h (x0 :: x') (by simp))).1 d
          (by rw [List.head?_cons, hd'])

theorem joinSep_getLast_not_ws (sep : Char) (hsep : wsChar sep = false)
    (cells : List Str) (h : ∀ cell ∈ cells, trimChars cell = cell) :
    ∀ d, (joinSep sep cells).getLast? = some d → wsChar d = false := by
  induction cells with
  | nil => intro d hd; simp [joinSep] at hd
  | cons x cells' ih =>
    cases cells' with
    | nil =>
      intro d hd
      exact (trim_eq_self_ends x (h x (by simp))).2 d hd
    | cons y rest =>
      intro d hd
      rw [show joinSep sep (x :: y :: rest) = x ++ sep :: joinSep sep (y :: rest) from rfl,
        List.getLast?_append_of_ne_nil _ (by simp)] at hd
      cases hJ : joinSep sep (y :: rest) with
      | nil =>
        rw [hJ, List.getLast?_singleton] at hd
        injection hd with hd'
        rw [← hd']
        exact hsep
      | cons z zs =>
        rw [hJ, List.getLast?_cons_cons] at hd
        refine ih (fun cell hc => h cell (by simp [hc])) d ?_
        rw [hJ]
        exact hd

theorem joinSep_head_of_first (sep : Char) (x : Str) (cells' : List Str) (hx : x ≠ []) :
    (joinSep sep (x :: cells')).head? = x.head? := by
  cases cells' with
  | nil => rfl
  | cons y rest =>
    obtain ⟨x0, x', rfl⟩ := List.exists_cons_of_ne_nil hx
    rfl

theorem joinSep_getLast_nonempty (sep : Char) (cells : List Str)
    (h : ∀ cell ∈ cells, cell ≠ []) :
    ∀ d, (joinSep sep cells).getLast? = some d →
      ∃ cell ∈ cells, cell.getLast? = some d := by
  induction cells with
  | nil => intro d hd; simp [joinSep] at hd
  | cons x cells' ih =>
    cases cells' with
    | nil => exact fun d hd => ⟨x, by simp, hd⟩
    | cons y rest =>
      intro d hd
      rw [show joinSep sep (x :: y :: rest) = x ++ sep :: joinSep sep (y :: rest) from rfl,
        List.getLast?_append_of_ne_nil _ (by simp)] at hd
      have hJne : joinSep sep (y :: rest) ≠ [] := by
        cases rest with
        | nil => exact h y (by simp)
        | cons z rest' =>
          rw [show joinSep sep (y :: z :: rest') = y ++ sep :: joinSep sep (z :: rest') from rfl]
          simp
      obtain ⟨z, zs, hJ⟩ := List.exists_cons_of_ne_nil hJne
      rw [hJ, List.getLast?_cons_cons] at hd
      obtain ⟨cell, hc, hcd⟩ := ih (fun c hcc => h c (by simp [hcc])) d (by rw [hJ]; exact hd)
      exact ⟨cell, by simp [hc], hcd⟩

/-- A cell that survives the round trip untouched: no separator,
quote or newline characters, no literal backslash-n pair, and no
surrounding whitespace (the parser trims every field). -/
def goodCell (cell : Str) : Prop :=
  (∀ x ∈ cell, x ≠ ',' ∧ x ≠ '"' ∧ x ≠ '\n') ∧ noBSn cell = true ∧
    trimChars cell = cell

instance (cell : Str) : Decidable (goodCell cell) := by
  unfold goodCell
  infer_instance

/-- C4 (counterexample): a ParsedTable whose single cell ` x` (leading
space, no comma/quote/newline) does not round-trip: the parser trims
the cell, so `parse(reconstruct(headers, rows))` differs from the
original table. -/
theorem parse_reconstruct_not_inverse :
    parseCSV (reconstructCSV [['a']] [[[' ', 'x']]]) ≠
      some ⟨[['a']], [[[' ', 'x']]]⟩ := by decide

/-- C4 (amended): `parse(reconstruct(headers, rows)) = (headers, rows)`
for every table with no comma, quote or newline inside cells, provided
additionally that cells carry no literal backslash-n pair and no
surrounding whitespace, headers are already lower-case, every row has
exactly `headers.length` cells, there is at least one row, and no line
of the reconstruction is empty (which only a single-column table with
an empty header or cell can produce). -/
theorem parseCSV_reconstructCSV_inverse (headers : List Str) (rows : List (List Str))
    (hhead : ∀ hc ∈ headers, goodCell hc ∧ lowerChars hc = hc)
    (hrows : ∀ r ∈ rows, r.length = headers.length ∧ ∀ c ∈ r, goodCell c)
    (hrne : rows ≠ [])
    (hhne : joinSep ',' headers ≠ [])
    (hlne : ∀ r ∈ rows, joinSep ',' r ≠ []) :
    parseCSV (reconstructCSV headers rows) = some ⟨headers, rows⟩ := by
  obtain ⟨r0, rows', rfl⟩ := List.exists_cons_of_ne_nil hrne
  have hhne' : headers ≠ [] := by
    intro he
    rw [he] at hhne
    exact hhne rfl
  have htrimheaders : ∀ cell ∈ headers, trimChars cell = cell :=
    fun c hc => (hhead c hc).1.2.2
  have hline_of_mem : ∀ l ∈ (joinSep ',' headers :: (r0 :: rows').map (joinSep ',')),
      ∃ cells, l = joinSep ',' cells ∧ (∀ c ∈ cells, goodCell c) ∧ l ≠ [] := by
    intro l hl
    rcases List.mem_cons.mp hl with rfl | hl'
    · exact ⟨headers, rfl, fun c hc => (hhead c hc).1, hhne⟩
    · obtain ⟨r, hr, rfl⟩ := List.mem_map.mp hl'
      exact ⟨r, rfl, fun c hc => (hrows r hr).2 c hc, hlne r hr⟩
  have hlines_ne : ∀ l ∈ (joinSep ',' headers :: (r0 :: rows').map (joinSep ',')), l ≠ [] :=
    fun l hl => (hline_of_mem l hl).choose_spec.2.2
  have htrimline : ∀ l ∈ (joinSep ',' headers :: (r0 :: rows').map (joinSep ',')),
      trimChars l = l := by
    intro l hl
    obtain ⟨cells, rfl, hcells, _⟩ := hline_of_mem l hl
    exact trim_eq_self_of_ends _
      (joinSep_head_not_ws ',' (by decide) cells (fun c hc => (hcells c hc).2.2))
      (joinSep_getLast_not_ws ',' (by decide) cells (fun c hc => (hcells c hc).2.2))
  have hnoNl : ∀ l ∈ (joinSep ',' headers :: (r0 :: rows').map (joinSep ',')),
      ∀ x ∈ l, x ≠ '\n' := by
    intro l hl x hx
    obtain ⟨cells, rfl, hcells, _⟩ := hline_of_mem l hl
    rcases mem_joinSep ',' cells x hx with rfl | ⟨cell, hcell, hxc⟩
    · decide
    · exact ((hcells cell hcell).1 x hxc).2.2
  have htext_nobsn :
      noBSn (joinSep '\n' (joinSep ',' headers :: (r0 :: rows').map (joinSep ','))) = true := by
    apply noBSn_joinSep '\n' (by decide) (by decide)
    intro l hl
    obtain ⟨cells, rfl, hcells, _⟩ := hline_of_mem l hl
    exact noBSn_joinSep ',' (by decide) (by decide) cells (fun c hc => (hcells c hc).2.1)
  have hnorm := normalize_eq_self _ htext_nobsn
  have htrimtext :
      trimChars (joinSep '\n' (joinSep ',' headers :: (r0 :: rows').map (joinSep ','))) =
        joinSep '\n' (joinSep ',' headers :: (r0 :: rows').map (joinSep ',')) := by
    apply trim_eq_self_of_ends
    · intro d hd
      rw [joinSep_head_of_first '\n' _ _ hhne] at hd
      exact joinSep_head_not_ws ',' (by decide) headers htrimheaders d hd
    · intro d hd
      obtain ⟨l, hl, hld⟩ := joinSep_getLast_nonempty '\n' _ hlines_ne d hd
      obtain ⟨cells, rfl, hcells, _⟩ := hline_of_mem l hl
      exact joinSep_getLast_not_ws ',' (by decide) cells
        (fun c hc => (hcells c hc).2.2) d hld
  have hsplit := splitNL_joinSep
    (joinSep ',' headers :: (r0 :: rows').map (joinSep ',')) (by simp) hnoNl
  have hfilter : (joinSep ',' headers :: (r0 :: rows').map (joinSep ',')).filter
      (fun l => 0 < (trimChars l).length) =
      joinSep ',' headers :: (r0 :: rows').map (joinSep ',') := by
    apply List.filter_eq_self.mpr
    intro l hl
    rw [htrimline l hl]
    simpa [List.length_pos] using hlines_ne l hl
  have hheadline : parseCSVLine (joinSep ',' headers) = headers := by
    rw [parseCSVLine_joinSep headers hhne'
      (fun cell hc x hx => ⟨((hhead cell hc).1.1 x hx).2.1, ((hhead cell hc).1.1 x hx).1⟩)]
    conv_rhs => rw [← List.map_id headers]
    exact List.map_congr_left (fun a ha => htrimheaders a ha)
  have hlowermap : headers.map lowerChars = headers := by
    conv_rhs => rw [← List.map_id headers]
    exact List.map_congr_left (fun a ha => (hhead a ha).2)
  have hrowline : ∀ r ∈ r0 :: rows',
      padTruncRow headers.length (parseCSVLine (joinSep ',' r)) = r := by
    intro r hr
    have hrlen := (hrows r hr).1
    have hrne2 : r ≠ [] := by
      intro he
      rw [he] at hrlen
      simp at hrlen
      exact hhne' (List.length_eq_zero.mp hrlen.symm)
    rw [parseCSVLine_joinSep r hrne2
      (fun cell hc x hx => ⟨(((hrows r hr).2 cell hc).1 x hx).2.1,
        (((hrows r hr).2 cell hc).1 x hx).1⟩)]
    have htr : r.map trimChars = r := by
      conv_rhs => rw [← List.map_id r]
      exact List.map_congr_left (fun a ha => ((hrows r hr).2 a ha).2.2)
    rw [htr, padTruncRow_long _ _ (le_of_eq hrlen.symm), ← hrlen, List.take_length]
  simp only [reconstructCSV, parseCSV]
  rw [hnorm, htrimtext, hsplit, hfilter]
  simp only [List.map_cons]
  rw [hheadline, hlowermap]
  congr 1
  rw [CSVTable.mk.injEq]
  refine ⟨rfl, ?_⟩
  rw [List.map_map]
  refine congrArg₂ _ (hrowline r0 (by simp)) ?_
  conv_rhs => rw [← List.map_id rows']
  exact List.map_congr_left (fun r hr => hrowline r (by simp [hr]))

theorem parseCSV_reconstructCSV_inverse_witness :
    parseCSV (reconstructCSV [['n','a','m','e'],['a','g','e']]
        [[['b','o','b'],['3','1']]]) =
      some ⟨[['n','a','m','e'],['a','g','e']], [[['b','o','b'],['3','1']]]⟩ :=
  parseCSV_reconstructCSV_inverse _ _ (by decide) (by decide) (by decide)
    (by decide) (by decide)
